import Mathlib

/-!
Verification development for the media-sorting and factorization program
(`main.py` and `factorize.py`).

Python strings are modelled as lists of Unicode characters (`List Char`),
file-system paths as lists of path components, Python lists as Lean lists and
Python sets as `Finset`s.  Each definition is a shallow embedding of the
function of the same (or clearly indicated) place in the source.
-/

/-- Strings of the Python program, modelled as lists of Unicode characters. -/
abbrev Str := List Char

/-- Transliteration table `TRANS` built by the loop at `main.py` lines 105-107
out of `CYRILLIC_SYMBOLS` and `TRANSLATION` (lines 62-101): every lower-case
Cyrillic letter of `CYRILLIC_SYMBOLS` maps to its ASCII transliteration `l`,
and the corresponding upper-case letter (`c.upper()`) maps to `l.upper()`.
The hard and soft signs map to an apostrophe (code point 39), which
`upper()` leaves unchanged.  The dictionary is modelled as an association
list with pairwise distinct keys. -/
def TRANS : List (Char × Str) := [
  ('а', ['a']), ('А', ['A']),
  ('б', ['b']), ('Б', ['B']),
  ('в', ['v']), ('В', ['V']),
  ('г', ['g']), ('Г', ['G']),
  ('д', ['d']), ('Д', ['D']),
  ('е', ['e']), ('Е', ['E']),
  ('ё', ['y', 'o']), ('Ё', ['Y', 'O']),
  ('ж', ['z', 'h']), ('Ж', ['Z', 'H']),
  ('з', ['z']), ('З', ['Z']),
  ('и', ['i']), ('И', ['I']),
  ('й', ['y']), ('Й', ['Y']),
  ('к', ['k']), ('К', ['K']),
  ('л', ['l']), ('Л', ['L']),
  ('м', ['m']), ('М', ['M']),
  ('н', ['n']), ('Н', ['N']),
  ('о', ['o']), ('О', ['O']),
  ('п', ['p']), ('П', ['P']),
  ('р', ['r']), ('Р', ['R']),
  ('с', ['s']), ('С', ['S']),
  ('т', ['t']), ('Т', ['T']),
  ('у', ['u']), ('У', ['U']),
  ('ф', ['f']), ('Ф', ['F']),
  ('х', ['k', 'h']), ('Х', ['K', 'H']),
  ('ц', ['t', 's']), ('Ц', ['T', 'S']),
  ('ч', ['c', 'h']), ('Ч', ['C', 'H']),
  ('ш', ['s', 'h']), ('Ш', ['S', 'H']),
  ('щ', ['s', 'h', 'c', 'h']), ('Щ', ['S', 'H', 'C', 'H']),
  ('ъ', [Char.ofNat 39]), ('Ъ', [Char.ofNat 39]),
  ('ы', ['y']), ('Ы', ['Y']),
  ('ь', [Char.ofNat 39]), ('Ь', [Char.ofNat 39]),
  ('э', ['e']), ('Э', ['E']),
  ('ю', ['y', 'u']), ('Ю', ['Y', 'U']),
  ('я', ['y', 'a']), ('Я', ['Y', 'A']),
  ('є', ['y', 'e']), ('Є', ['Y', 'E']),
  ('і', ['i']), ('І', ['I']),
  ('ї', ['y', 'i']), ('Ї', ['Y', 'I']),
  ('ґ', ['g']), ('Ґ', ['G'])]

/-- One character through `str.translate(TRANS)`: a character whose code point
is a key of `TRANS` is replaced by the mapped string, every other character is
kept unchanged (first step of `main.py` line 127). -/
def translateChar (c : Char) : Str :=
  match TRANS.lookup c with
  | some r => r
  | none => [c]

/-- Python `filename.translate(TRANS)` over a whole string. -/
def pyTranslate (s : Str) : Str := s.flatMap translateChar

/-- Python regex class `\w` (a word character: letter, digit or underscore),
restricted to the character ranges this program manipulates: ASCII digits,
ASCII letters, the underscore, and the Cyrillic block U+0400 - U+04FF (which
contains every key of `TRANS`).  Line 60 of `main.py` sets
`pattern = r"\W"`, the complement of this class. -/
def isWordChar (c : Char) : Bool :=
  (48 ≤ c.toNat && c.toNat ≤ 57) || (65 ≤ c.toNat && c.toNat ≤ 90) ||
  (97 ≤ c.toNat && c.toNat ≤ 122) || c == '_' ||
  (0x400 ≤ c.toNat && c.toNat ≤ 0x4FF)

/-- Python `re.sub(pattern, "_", s)` with `pattern = r"\W"`: each single
non-word character is one match of the pattern and is replaced by one
underscore (second step of `main.py` line 127). -/
def reSubNonWord (s : Str) : Str := s.map fun c => if isWordChar c then c else '_'

/-- Index of the last element of the list satisfying `p` (Python
`str.rfind` restricted to single-character needles). -/
def rfindIdx (p : Char → Bool) : Str → Option Nat
  | [] => none
  | c :: rest =>
    match rfindIdx p rest with
    | some i => some (i + 1)
    | none => if p c then some 0 else none

/-- CPython `posixpath.splitext` (`genericpath._splitext` with separator `/`
and no alternative separator), used by `os.path.splitext` at `main.py` line
126: the extension starts at the last dot, provided the dot lies after the
last path separator and at least one character of the base name strictly
before it is not a dot (leading dots of the base name never start an
extension); otherwise the extension is empty. -/
def splitext (p : Str) : Str × Str :=
  match rfindIdx (· == '.') p with
  | none => (p, [])
  | some dotIndex =>
    let start := match rfindIdx (· == '/') p with
      | none => 0
      | some sepIndex => sepIndex + 1
    if (List.range (dotIndex - start)).any
        (fun k => !(p.getD (start + k) ' ' == '.')) then
      (p.take dotIndex, p.drop dotIndex)
    else (p, [])

/-- Embeds `MediaHandler.normalize` (`main.py` lines 124-128): split the name
into stem and extension with `os.path.splitext`, transliterate the stem
through `TRANS`, replace every remaining non-word character of the stem by an
underscore, and reattach the extension unchanged. -/
def MediaHandler.normalize (name : Str) : Str :=
  let fe := splitext name
  reSubNonWord (pyTranslate fe.1) ++ fe.2

/-! ### Facts about the transliteration table and normalization -/

theorem lookup_pair_mem {l : List (Char × Str)} {c : Char} {v : Str}
    (h : l.lookup c = some v) : (c, v) ∈ l := by
  induction l with
  | nil => simp [List.lookup] at h
  | cons p l ih =>
    obtain ⟨k, b⟩ := p
    rw [List.lookup_cons] at h
    cases hc : (c == k) with
    | true =>
      rw [hc] at h
      simp only [Option.some.injEq] at h
      subst h
      have : c = k := eq_of_beq hc
      subst this
      exact List.mem_cons_self _ _
    | false =>
      rw [hc] at h
      exact List.mem_cons_of_mem _ (ih h)

theorem trans_values_not_keys :
    (TRANS.all fun pr => pr.2.all fun c => (TRANS.lookup c).isNone) = true := by
  decide

theorem trans_lookup_underscore : TRANS.lookup '_' = none := by decide

theorem trans_values_ne_nil : (TRANS.all fun pr => !pr.2.isEmpty) = true := by
  decide

/-- A string no character of which is a key of `TRANS`. -/
def KeyFree (s : Str) : Prop := ∀ c ∈ s, TRANS.lookup c = none

theorem translateChar_keyFree {a c : Char} (h : c ∈ translateChar a) :
    TRANS.lookup c = none := by
  unfold translateChar at h
  cases hl : TRANS.lookup a with
  | some v =>
    rw [hl] at h
    have hmem := lookup_pair_mem hl
    have h1 := List.all_eq_true.mp trans_values_not_keys _ hmem
    have h2 := List.all_eq_true.mp h1 _ h
    exact Option.isNone_iff_eq_none.mp h2
  | none =>
    rw [hl] at h
    simp only [List.mem_singleton] at h
    subst h
    exact hl

theorem pyTranslate_keyFree (s : Str) : KeyFree (pyTranslate s) := by
  intro c hc
  obtain ⟨a, _, hca⟩ := List.mem_flatMap.mp hc
  exact translateChar_keyFree hca

theorem pyTranslate_eq_self {s : Str} (h : KeyFree s) : pyTranslate s = s := by
  induction s with
  | nil => rfl
  | cons a s ih =>
    have ha : TRANS.lookup a = none := h a (List.mem_cons_self a s)
    have ht : KeyFree s := fun c hc => h c (List.mem_cons_of_mem _ hc)
    rw [pyTranslate, List.flatMap_cons]
    rw [show translateChar a = [a] by rw [translateChar, ha]]
    rw [show List.flatMap s translateChar = pyTranslate s from rfl, ih ht]
    rfl

theorem mem_reSubNonWord {c : Char} {s : Str} (h : c ∈ reSubNonWord s) :
    (isWordChar c = true ∧ c ∈ s) ∨ c = '_' := by
  unfold reSubNonWord at h
  obtain ⟨a, ha, hc⟩ := List.mem_map.mp h
  by_cases hw : isWordChar a
  · left
    rw [if_pos hw] at hc
    subst hc
    exact ⟨hw, ha⟩
  · right
    rw [if_neg hw] at hc
    exact hc.symm

theorem keyFree_reSubNonWord {s : Str} (h : KeyFree s) : KeyFree (reSubNonWord s) := by
  intro c hc
  rcases mem_reSubNonWord hc with ⟨_, hcs⟩ | hu
  · exact h c hcs
  · subst hu
    exact trans_lookup_underscore

theorem reSubNonWord_idem (s : Str) : reSubNonWord (reSubNonWord s) = reSubNonWord s := by
  unfold reSubNonWord
  rw [List.map_map]
  apply List.map_congr_left
  intro a _
  by_cases hw : isWordChar a <;> simp [Function.comp, hw]

theorem reSubNonWord_no_dot (s : Str) : '.' ∉ reSubNonWord s := by
  intro h
  rcases mem_reSubNonWord h with ⟨hw, _⟩ | hu
  · exact absurd hw (by decide)
  · exact absurd hu (by decide)

theorem reSubNonWord_no_slash (s : Str) : '/' ∉ reSubNonWord s := by
  intro h
  rcases mem_reSubNonWord h with ⟨hw, _⟩ | hu
  · exact absurd hw (by decide)
  · exact absurd hu (by decide)

theorem translateChar_ne_nil (a : Char) : translateChar a ≠ [] := by
  unfold translateChar
  cases hl : TRANS.lookup a with
  | some v =>
    have hmem := lookup_pair_mem hl
    have := List.all_eq_true.mp trans_values_ne_nil _ hmem
    simpa using this
  | none => simp

theorem pyTranslate_ne_nil {s : Str} (h : s ≠ []) : pyTranslate s ≠ [] := by
  cases s with
  | nil => exact absurd rfl h
  | cons a s =>
    rw [pyTranslate, List.flatMap_cons]
    intro heq
    rcases List.append_eq_nil.mp heq with ⟨h1, _⟩
    exact translateChar_ne_nil a h1

theorem reSubNonWord_ne_nil {s : Str} (h : s ≠ []) : reSubNonWord s ≠ [] := by
  unfold reSubNonWord
  simpa using h

theorem rfindIdx_eq_none_iff {ch : Char} {s : Str} :
    rfindIdx (· == ch) s = none ↔ ch ∉ s := by
  induction s with
  | nil => simp [rfindIdx]
  | cons c rest ih =>
    rw [rfindIdx]
    cases hr : rfindIdx (· == ch) rest with
    | some i =>
      have hmem : ch ∈ rest := by
        by_contra hnot
        rw [ih.mpr hnot] at hr
        cases hr
      simp only
      constructor
      · intro h
        cases h
      · intro h
        exact absurd (List.mem_cons_of_mem _ hmem) h
    | none =>
      have hnot : ch ∉ rest := ih.mp hr
      simp only
      by_cases hc : (c == ch) = true
      · rw [if_pos hc]
        have : c = ch := eq_of_beq hc
        subst this
        constructor
        · intro h
          cases h
        · intro h
          exact absurd (List.mem_cons_self _ _) h
      · rw [if_neg hc]
        have hcne : ch ≠ c := fun h => hc (by subst h; exact beq_self_eq_true _)
        simp [List.mem_cons, hcne, hnot]

theorem rfindIdx_spec {ch : Char} {s : Str} {i : Nat}
    (h : rfindIdx (· == ch) s = some i) :
    i < s.length ∧ s.getD i ' ' = ch ∧
      ∀ j, i < j → j < s.length → s.getD j ' ' ≠ ch := by
  induction s generalizing i with
  | nil => cases h
  | cons c rest ih =>
    rw [rfindIdx] at h
    cases hr : rfindIdx (· == ch) rest with
    | some i' =>
      rw [hr] at h
      simp only [Option.some.injEq] at h
      subst h
      obtain ⟨h1, h2, h3⟩ := ih hr
      refine ⟨by simpa using Nat.succ_lt_succ h1,
        by simpa [List.getD_cons_succ] using h2, ?_⟩
      intro j hij hj
      cases j with
      | zero => omega
      | succ j' =>
        rw [List.getD_cons_succ]
        exact h3 j' (by omega) (by simpa using hj)
    | none =>
      rw [hr] at h
      by_cases hc : (c == ch) = true
      · rw [if_pos hc] at h
        simp only [Option.some.injEq] at h
        subst h
        refine ⟨by simp, by simpa using eq_of_beq hc, ?_⟩
        intro j hj hjl
        cases j with
        | zero => omega
        | succ j' =>
          rw [List.getD_cons_succ]
          have hnot : ch ∉ rest := rfindIdx_eq_none_iff.mp hr
          intro heq
          have hjb : j' < rest.length := by simpa using hjl
          rw [List.getD_eq_getElem _ _ hjb] at heq
          exact hnot (heq ▸ List.getElem_mem hjb)
      · rw [if_neg hc] at h
        cases h

theorem rfindIdx_append_last {ch : Char} {xs ys : Str} (hys : ch ∉ ys) :
    rfindIdx (· == ch) (xs ++ ch :: ys) = some xs.length := by
  induction xs with
  | nil =>
    rw [List.nil_append, rfindIdx, rfindIdx_eq_none_iff.mpr hys]
    simp
  | cons x xs ih =>
    rw [List.cons_append, rfindIdx, ih]
    simp

theorem splitext_of_no_dot {s : Str} (h : '.' ∉ s) : splitext s = (s, []) := by
  unfold splitext
  rw [rfindIdx_eq_none_iff.mpr h]

theorem splitext_stem_ext {st rest : Str} (h1 : st ≠ []) (hd : '.' ∉ st)
    (hs : '/' ∉ st) (hd2 : '.' ∉ rest) (hs2 : '/' ∉ rest) :
    splitext (st ++ '.' :: rest) = (st, '.' :: rest) := by
  unfold splitext
  rw [rfindIdx_append_last hd2]
  have hslash : '/' ∉ st ++ '.' :: rest := by
    intro hmem
    rcases List.mem_append.mp hmem with hin | hin
    · exact hs hin
    · rcases List.mem_cons.mp hin with heq | hin2
      · cases heq
      · exact hs2 hin2
  rw [rfindIdx_eq_none_iff.mpr hslash]
  simp only [Nat.sub_zero, Nat.zero_add]
  obtain ⟨a, st', rfl⟩ := List.exists_cons_of_ne_nil h1
  have hane : a ≠ '.' := fun h => hd (h ▸ List.mem_cons_self _ _)
  have hany : (List.range (a :: st').length).any
      (fun k => !(((a :: st') ++ '.' :: rest).getD k ' ' == '.')) = true := by
    apply List.any_eq_true.mpr
    refine ⟨0, List.mem_range.mpr (by simp), ?_⟩
    simpa using hane
  rw [if_pos hany, List.take_left, List.drop_left]

theorem splitext_shape (p : Str) :
    splitext p = (p, []) ∨
    ∃ st rest, splitext p = (st, '.' :: rest) ∧ p = st ++ '.' :: rest ∧
      st ≠ [] ∧ '.' ∉ rest ∧ '/' ∉ rest := by
  cases hdot : rfindIdx (· == '.') p with
  | none =>
    left
    unfold splitext
    rw [hdot]
  | some dotIndex =>
    obtain ⟨hlt, hget, hlast⟩ := rfindIdx_spec hdot
    have hdrop_no_dot : '.' ∉ p.drop (dotIndex + 1) := by
      intro hmem
      obtain ⟨n, hn, hval⟩ := List.mem_iff_getElem.mp hmem
      rw [List.getElem_drop] at hval
      have hb : dotIndex + 1 + n < p.length := by
        have hlen := hn
        rw [List.length_drop] at hlen
        omega
      have hne := hlast (dotIndex + 1 + n) (by omega) hb
      rw [List.getD_eq_getElem _ _ hb] at hne
      exact hne hval
    have hdropcons : p.drop dotIndex = '.' :: p.drop (dotIndex + 1) := by
      rw [List.drop_eq_getElem_cons hlt]
      congr 1
      rw [← List.getD_eq_getElem p ' ' hlt]
      exact hget
    have htake_ne : 1 ≤ dotIndex → p.take dotIndex ≠ [] := by
      intro hd1 hnil
      have hlen := congrArg List.length hnil
      rw [List.length_take] at hlen
      rcases (by simpa using hlen : dotIndex = 0 ∨ p = []) with h | h
      · omega
      · subst h
        simp at hlt
    cases hsl : rfindIdx (· == '/') p with
    | none =>
      by_cases hany : ((List.range (dotIndex - 0)).any
          (fun k => !(p.getD (0 + k) ' ' == '.')) = true)
      · right
        have hres : splitext p = (p.take dotIndex, p.drop dotIndex) := by
          unfold splitext
          rw [hdot, hsl]
          simp only
          rw [if_pos hany]
        obtain ⟨k, hk, _⟩ := List.any_eq_true.mp hany
        rw [List.mem_range] at hk
        refine ⟨p.take dotIndex, p.drop (dotIndex + 1), ?_, ?_,
          htake_ne (by omega), hdrop_no_dot, ?_⟩
        · rw [hres, hdropcons]
        · conv_lhs => rw [← List.take_append_drop dotIndex p]
          rw [hdropcons]
        · have hnp : '/' ∉ p := rfindIdx_eq_none_iff.mp hsl
          exact fun hmem => hnp (List.mem_of_mem_drop hmem)
      · left
        unfold splitext
        rw [hdot, hsl]
        simp only
        rw [if_neg hany]
    | some sepIndex =>
      obtain ⟨hslt, hsget, hslast⟩ := rfindIdx_spec hsl
      by_cases hany : ((List.range (dotIndex - (sepIndex + 1))).any
          (fun k => !(p.getD (sepIndex + 1 + k) ' ' == '.')) = true)
      · right
        have hres : splitext p = (p.take dotIndex, p.drop dotIndex) := by
          unfold splitext
          rw [hdot, hsl]
          simp only
          rw [if_pos hany]
        obtain ⟨k, hk, _⟩ := List.any_eq_true.mp hany
        rw [List.mem_range] at hk
        refine ⟨p.take dotIndex, p.drop (dotIndex + 1), ?_, ?_,
          htake_ne (by omega), hdrop_no_dot, ?_⟩
        · rw [hres, hdropcons]
        · conv_lhs => rw [← List.take_append_drop dotIndex p]
          rw [hdropcons]
        · intro hmem
          obtain ⟨n, hn, hval⟩ := List.mem_iff_getElem.mp hmem
          rw [List.getElem_drop] at hval
          have hb : dotIndex + 1 + n < p.length := by
            have hlen := hn
            rw [List.length_drop] at hlen
            omega
          have hne := hslast (dotIndex + 1 + n) (by omega) hb
          rw [List.getD_eq_getElem _ _ hb] at hne
          exact hne hval
      · left
        unfold splitext
        rw [hdot, hsl]
        simp only
        rw [if_neg hany]

/-- C5: `normalize` is idempotent: for every valid file name `x`,
`normalize(normalize(x))` equals `normalize(x)`  (`MediaHandler.normalize`,
`main.py` lines 124-128, with the table `TRANS` of lines 103-107). -/
theorem normalize_idempotent (x : Str) :
    MediaHandler.normalize (MediaHandler.normalize x) = MediaHandler.normalize x := by
  rcases splitext_shape x with h | ⟨st, rest, h, _, hne, hdr, hsr⟩
  · unfold MediaHandler.normalize
    rw [h]
    simp only [List.append_nil]
    rw [splitext_of_no_dot (reSubNonWord_no_dot (pyTranslate x))]
    simp only [List.append_nil]
    rw [pyTranslate_eq_self (keyFree_reSubNonWord (pyTranslate_keyFree x)),
      reSubNonWord_idem]
  · unfold MediaHandler.normalize
    rw [h]
    simp only
    rw [splitext_stem_ext
      (reSubNonWord_ne_nil (pyTranslate_ne_nil hne))
      (reSubNonWord_no_dot (pyTranslate st))
      (reSubNonWord_no_slash (pyTranslate st)) hdr hsr]
    simp only
    rw [pyTranslate_eq_self (keyFree_reSubNonWord (pyTranslate_keyFree st)),
      reSubNonWord_idem]

/-! ### Extension extraction and classification -/

/-- CPython `pathlib.PurePath.suffix` on a bare file name: the substring from
the last dot to the end, provided that dot is neither the leading character
nor the last one; otherwise the empty string.  Used through
`Path(name).suffix` at `main.py` line 122, where `name` is always the base
name of a directory entry. -/
def pySuffix (name : Str) : Str :=
  match rfindIdx (· == '.') name with
  | none => []
  | some i => if 0 < i ∧ i < name.length - 1 then name.drop i else []

/-- Python `str.upper()` on one character, restricted to the alphabets this
program manipulates: ASCII letters and the Cyrillic rows U+0430 - U+044F,
U+0450 - U+045F and U+0491; every other character is left unchanged. -/
def upperChar (c : Char) : Char :=
  if 97 ≤ c.toNat ∧ c.toNat ≤ 122 then Char.ofNat (c.toNat - 32)
  else if 0x430 ≤ c.toNat ∧ c.toNat ≤ 0x44F then Char.ofNat (c.toNat - 0x20)
  else if 0x450 ≤ c.toNat ∧ c.toNat ≤ 0x45F then Char.ofNat (c.toNat - 0x50)
  else if c.toNat = 0x491 then Char.ofNat 0x490
  else c

/-- Python `str.upper()` over a whole string. -/
def pyUpper (s : Str) : Str := s.map upperChar

/-- Embeds `MediaHandler.get_extension` (`main.py` lines 120-122):
`Path(name).suffix[1:].upper()` - the suffix without its leading dot,
upper-cased. -/
def MediaHandler.get_extension (name : Str) : Str :=
  pyUpper ((pySuffix name).drop 1)

/-- The twenty per-extension accumulator lists declared at `main.py` lines
11-30, as abstract bucket identifiers (their contents live in `ScanState`
below).  `MY_OTHER` is the catch-all bucket. -/
inductive Bucket where
  | JPEG_IMAGES | JPG_IMAGES | PNG_IMAGES | SVG_IMAGES
  | MP3_AUDIO | OGG_AUDIO | WAV_AUDIO | AMR_AUDIO
  | AVI_VIDEO | MP4_VIDEO | MOV_VIDEO | MKV_VIDEO
  | DOC_DOCS | DOCX_DOCS | TXT_DOCS | PDF_DOCS | XLSX_DOCS | PPTX_DOCS
  | ARCHIVES | MY_OTHER
  deriving DecidableEq, Repr

/-- The fixed dictionary `REGISTER_EXTENSION` (`main.py` lines 32-54) mapping
an upper-case extension string to the bucket list it appends to.  `ZIP`,
`GZ` and `TAR` all map to the single `ARCHIVES` bucket. -/
def REGISTER_EXTENSION : List (Str × Bucket) := [
  (['J','P','E','G'], .JPEG_IMAGES),
  (['J','P','G'], .JPG_IMAGES),
  (['P','N','G'], .PNG_IMAGES),
  (['S','V','G'], .SVG_IMAGES),
  (['M','P','3'], Bucket.MP3_AUDIO),
  (['O','G','G'], Bucket.OGG_AUDIO),
  (['W','A','V'], Bucket.WAV_AUDIO),
  (['A','M','R'], Bucket.AMR_AUDIO),
  (['A','V','I'], .AVI_VIDEO),
  (['M','P','4'], .MP4_VIDEO),
  (['M','O','V'], .MOV_VIDEO),
  (['M','K','V'], .MKV_VIDEO),
  (['D','O','C'], .DOC_DOCS),
  (['D','O','C','X'], .DOCX_DOCS),
  (['T','X','T'], .TXT_DOCS),
  (['P','D','F'], .PDF_DOCS),
  (['X','L','S','X'], .XLSX_DOCS),
  (['P','P','T','X'], .PPTX_DOCS),
  (['Z','I','P'], .ARCHIVES),
  (['G','Z'], .ARCHIVES),
  (['T','A','R'], .ARCHIVES)]

/-- The six output categories, one per dispatch task of
`MediaHandler.process_folder` (`main.py` lines 226-247). -/
inductive Category where
  | images | audio | video | documents | archives | other
  deriving DecidableEq, Repr

/-- The category whose dispatch task of `MediaHandler.process_folder`
(`main.py` lines 226-247) drains a given bucket: the images task concatenates
the four image buckets, the audio task the four audio buckets, the video task
the four video buckets, the documents task the six document buckets, the
archive task takes `ARCHIVES` and the final task takes `MY_OTHER`. -/
def bucketCategory : Bucket → Category
  | .JPEG_IMAGES | .JPG_IMAGES | .PNG_IMAGES | .SVG_IMAGES => .images
  | Bucket.MP3_AUDIO | Bucket.OGG_AUDIO | Bucket.WAV_AUDIO | Bucket.AMR_AUDIO => .audio
  | .AVI_VIDEO | .MP4_VIDEO | .MOV_VIDEO | .MKV_VIDEO => .video
  | .DOC_DOCS | .DOCX_DOCS | .TXT_DOCS | .PDF_DOCS | .XLSX_DOCS | .PPTX_DOCS =>
    .documents
  | .ARCHIVES => .archives
  | .MY_OTHER => .other

/-- Classification of a raw extension string exactly as the program performs
it: `get_extension` upper-cases the extension (`main.py` line 122) and the
scan loop looks the result up in `REGISTER_EXTENSION` (line 202).  `none`
means the `KeyError` path: the file goes to `MY_OTHER`. -/
def classifyExt (ext : Str) : Option Bucket :=
  REGISTER_EXTENSION.lookup (pyUpper ext)

/-- C8: for every extension string in the fixed table, classification is
deterministic and case-insensitive: any two spellings with the same
upper-casing classify alike, because the extension is upper-cased before the
lookup in `REGISTER_EXTENSION`; in particular `mp3`, `MP3` and `mP3` all
yield the `MP3_AUDIO` bucket, which the dispatch phase sends to the audio
category. -/
theorem classify_case_insensitive :
    (∀ s t : Str, pyUpper s = pyUpper t → classifyExt s = classifyExt t) ∧
    classifyExt ['m','p','3'] = some Bucket.MP3_AUDIO ∧
    classifyExt ['M','P','3'] = some Bucket.MP3_AUDIO ∧
    classifyExt ['m','P','3'] = some Bucket.MP3_AUDIO ∧
    bucketCategory Bucket.MP3_AUDIO = Category.audio := by
  refine ⟨?_, by decide, by decide, by decide, rfl⟩
  intro s t h
  unfold classifyExt
  rw [h]

/-- Witness for C8 at concrete inputs: the spellings `mp3` and `MP3` have the
same upper-casing, hence the same classification. -/
theorem classify_case_insensitive_witness :
    classifyExt ['m','p','3'] = classifyExt ['M','P','3'] :=
  classify_case_insensitive.1 ['m','p','3'] ['M','P','3'] (by decide)

/-! ### Scan state and the recursive scan -/

/-- A file-system path, as the list of its components below the scanned
root (Python `folder / item.name` appends one component). -/
abbrev PyPath := List Str

/-- The module-level mutable scan state of `main.py`: the twenty bucket lists
of lines 11-30 (addressed through `REGISTER_EXTENSION`), the discovered
sub-folder list `FOLDERS` (line 56), the seen-extension set `EXTENSIONS`
(line 57) and the unknown-extension set `UNKNOWN` (line 58).  The program
keeps all four in module globals that live for the whole interpreter
session and are never re-initialized; the state is threaded explicitly
here. -/
structure ScanState where
  buckets : Bucket → List PyPath
  FOLDERS : List PyPath
  EXTENSIONS : Finset Str
  UNKNOWN : Finset Str

/-- The state the module initializers of `main.py` lines 11-30 and 56-58
produce when the interpreter imports the module: everything empty. -/
def initState : ScanState :=
  { buckets := fun _ => [], FOLDERS := [], EXTENSIONS := ∅, UNKNOWN := ∅ }

/-- Python `REGISTER_EXTENSION[extension].append(full_name)`: append one path
to one bucket list, leaving the other buckets unchanged. -/
def ScanState.appendBucket (st : ScanState) (b : Bucket) (p : PyPath) : ScanState :=
  { st with
    buckets := fun b' => if b' = b then st.buckets b' ++ [p] else st.buckets b' }

/-- Per-file body of the scan loop (`main.py` lines 196-206): compute the
extension; an empty extension sends the file straight to `MY_OTHER`; a listed
extension appends the file to its bucket and records the extension in
`EXTENSIONS`; the `KeyError` path records the extension in `UNKNOWN` and
sends the file to `MY_OTHER`. -/
def scanFileStep (st : ScanState) (folder : PyPath) (name : Str) : ScanState :=
  let extension := MediaHandler.get_extension name
  let full_name := folder ++ [name]
  if extension = [] then
    st.appendBucket .MY_OTHER full_name
  else
    match REGISTER_EXTENSION.lookup extension with
    | some b =>
      { st.appendBucket b full_name with
        EXTENSIONS := insert extension st.EXTENSIONS }
    | none =>
      { st.appendBucket .MY_OTHER full_name with
        UNKNOWN := insert extension st.UNKNOWN }

mutual
/-- A directory tree as `MediaHandler.scan` walks it: an entry of
`folder.iterdir()` is either a file or a subdirectory with its own entries
(in iteration order). -/
inductive Entry : Type where
  | file : Str → Entry
  | dir : Str → EntryList → Entry
/-- The entries of one directory, in the order `folder.iterdir()` yields
them. -/
inductive EntryList : Type where
  | nil : EntryList
  | cons : Entry → EntryList → EntryList
end

/-- The tuple of directory names at `main.py` lines 185-192 that
`MediaHandler.scan` refuses to record or recurse into:
`("archives", "video", "audio", "documents", "images", "MY_OTHER")`.
Note the last entry is the literal `MY_OTHER`, not `other`. -/
def scanSkipNames : List Str :=
  [['a','r','c','h','i','v','e','s'],
   ['v','i','d','e','o'],
   ['a','u','d','i','o'],
   ['d','o','c','u','m','e','n','t','s'],
   ['i','m','a','g','e','s'],
   ['M','Y','_','O','T','H','E','R']]

mutual
/-- One iteration of the `for item in folder.iterdir()` loop of
`MediaHandler.scan` (`main.py` lines 183-206): a subdirectory whose name is
in `scanSkipNames` is skipped entirely; any other subdirectory is appended
to `FOLDERS` and recursed into; a file goes through `scanFileStep`. -/
def scanEntry (folder : PyPath) (st : ScanState) : Entry → ScanState
  | .file name => scanFileStep st folder name
  | .dir name children =>
    if name ∈ scanSkipNames then st
    else
      scanEntryList (folder ++ [name])
        { st with FOLDERS := st.FOLDERS ++ [folder ++ [name]] } children
/-- The whole loop of `MediaHandler.scan` over one directory, in iteration
order. -/
def scanEntryList (folder : PyPath) (st : ScanState) : EntryList → ScanState
  | .nil => st
  | .cons e es => scanEntryList folder (scanEntry folder st e) es
end

/-- Embeds `MediaHandler.scan` (`main.py` lines 181-206) on a directory tree,
starting from (and mutating) the module-level state `st`. -/
def MediaHandler.scan (st : ScanState) (folder : PyPath) (entries : EntryList) :
    ScanState :=
  scanEntryList folder st entries

/-- C9: a scanned file with an empty extension is routed to the `MY_OTHER`
bucket and its (empty) extension is not recorded in the unknown-extension
set; a scanned file with a non-empty extension absent from
`REGISTER_EXTENSION` is routed to `MY_OTHER` and its extension is inserted
into the unknown-extension set. -/
theorem scan_unknown_extension_routing (st : ScanState) (folder : PyPath)
    (name : Str) :
    (MediaHandler.get_extension name = [] →
      (scanFileStep st folder name).buckets .MY_OTHER
          = st.buckets .MY_OTHER ++ [folder ++ [name]] ∧
      (scanFileStep st folder name).UNKNOWN = st.UNKNOWN) ∧
    (MediaHandler.get_extension name ≠ [] →
      REGISTER_EXTENSION.lookup (MediaHandler.get_extension name) = none →
      (scanFileStep st folder name).buckets .MY_OTHER
          = st.buckets .MY_OTHER ++ [folder ++ [name]] ∧
      (scanFileStep st folder name).UNKNOWN
          = insert (MediaHandler.get_extension name) st.UNKNOWN) := by
  constructor
  · intro h
    unfold scanFileStep
    rw [if_pos h]
    exact ⟨by simp [ScanState.appendBucket], rfl⟩
  · intro h hl
    unfold scanFileStep
    rw [if_neg h, hl]
    exact ⟨by simp [ScanState.appendBucket], rfl⟩

/-- Witness for C9: the extension-less name `README` goes to `MY_OTHER`
without touching the unknown set; the unlisted extension of `a.xyz` goes to
`MY_OTHER` and `XYZ` is recorded as unknown. -/
theorem scan_unknown_extension_routing_witness :
    ((scanFileStep initState [] ['R','E','A','D','M','E']).buckets .MY_OTHER
        = [[['R','E','A','D','M','E']]] ∧
      (scanFileStep initState [] ['R','E','A','D','M','E']).UNKNOWN = ∅) ∧
    ((scanFileStep initState [] ['a','.','x','y','z']).buckets .MY_OTHER
        = [[['a','.','x','y','z']]] ∧
      (scanFileStep initState [] ['a','.','x','y','z']).UNKNOWN
        = insert ['X','Y','Z'] ∅) := by
  constructor
  · have h := (scan_unknown_extension_routing initState [] ['R','E','A','D','M','E']).1
      (by decide)
    simpa [initState] using h
  · have h := (scan_unknown_extension_routing initState [] ['a','.','x','y','z']).2
      (by decide) (by decide)
    simpa [initState] using h

/-- C3 counterexample: the claim's reserved set contains the name `other`,
but scanning a tree whose root holds a directory named `other` with one file
`a.mp3` records `other` as a discovered subfolder and recurses into it (the
inner file reaches the `MP3_AUDIO` bucket) - the skip tuple of `main.py`
lines 185-192 lists `MY_OTHER`, not `other`. -/
theorem scan_recurses_into_other_dir :
    (scanEntry [] initState
        (.dir ['o','t','h','e','r'] (.cons (.file ['a','.','m','p','3']) .nil))).buckets
        Bucket.MP3_AUDIO = [[['o','t','h','e','r'], ['a','.','m','p','3']]] ∧
    (scanEntry [] initState
        (.dir ['o','t','h','e','r'] (.cons (.file ['a','.','m','p','3']) .nil))).FOLDERS
      = [[['o','t','h','e','r']]] := by
  constructor <;> decide

/-- C3 amended: the reserved directory names are `archives`, `video`,
`audio`, `documents`, `images` and `MY_OTHER` (case-sensitive exact match):
`scan` leaves the state untouched (so never records or recurses into the
entry) for a subdirectory named in `scanSkipNames`, and records every other
subdirectory in `FOLDERS` before recursing into its children. -/
theorem scan_skips_reserved_dirs (folder : PyPath) (st : ScanState)
    (name : Str) (children : EntryList) :
    (name ∈ scanSkipNames → scanEntry folder st (.dir name children) = st) ∧
    (name ∉ scanSkipNames →
      scanEntry folder st (.dir name children) =
        scanEntryList (folder ++ [name])
          { st with FOLDERS := st.FOLDERS ++ [folder ++ [name]] } children) := by
  constructor
  · intro h
    rw [scanEntry, if_pos h]
  · intro h
    rw [scanEntry, if_neg h]

/-- Witness for C3 amended: a directory named `archives` is skipped (state
unchanged); a directory named `photos` is recorded and recursed into. -/
theorem scan_skips_reserved_dirs_witness :
    scanEntry [] initState (.dir ['a','r','c','h','i','v','e','s'] .nil)
        = initState ∧
    scanEntry [] initState (.dir ['p','h','o','t','o','s'] .nil) =
      scanEntryList [['p','h','o','t','o','s']]
        { initState with FOLDERS := [[['p','h','o','t','o','s']]] } .nil := by
  constructor
  · exact (scan_skips_reserved_dirs [] initState _ .nil).1 (by decide)
  · have h := (scan_skips_reserved_dirs [] initState
      ['p','h','o','t','o','s'] .nil).2 (by decide)
    simpa [initState] using h

/-- C4: the scan state is NOT created fresh per top-level invocation - it
lives in module globals that are never cleared, so the buckets a second run's
dispatch phase consumes still contain the first run's records.  Concretely:
a first run scanning a tree with `a.mp3` followed by a second run scanning a
tree with only `b.mp3` leaves the `MP3_AUDIO` bucket holding both records,
where the claim demands it hold only the second run's record. -/
theorem scan_state_shared_across_runs :
    (MediaHandler.scan
        (MediaHandler.scan initState [] (.cons (.file ['a','.','m','p','3']) .nil))
        [] (.cons (.file ['b','.','m','p','3']) .nil)).buckets Bucket.MP3_AUDIO
      = [[['a','.','m','p','3']], [['b','.','m','p','3']]] := by
  decide

/-! ### File-system model and the relocation operations -/

/-- The file-system state the relocation phase mutates.  Files are an
association list from (global) path to an abstract file identity (standing
for the file's content); directories are the list of directory paths known
to exist.  Scanned-tree paths and the `result/` tree live in the same path
space. -/
structure FS where
  files : List (PyPath × Nat)
  dirs : List PyPath
  log : List Str
  deriving DecidableEq

/-- The only observable effect of `CustomLogger.log` (`factorize.py` lines
57-64): append one message to the log.  None of the relocation functions
modelled below ever calls it - in particular the `except` clause of
`handle_media` is a bare `pass`. -/
def CustomLogger.log (fs : FS) (msg : Str) : FS :=
  { fs with log := fs.log ++ [msg] }

/-- Content identity of the file at a path, if one exists. -/
def FS.fileAt (fs : FS) (p : PyPath) : Option Nat := fs.files.lookup p

/-- Bind path `p` to file identity `v`, atomically replacing any existing
binding (POSIX `rename` semantics overwrite an existing destination
file). -/
def FS.setFile (fs : FS) (p : PyPath) (v : Nat) : FS :=
  { fs with files := (p, v) :: fs.files.filter (fun pr => !(pr.1 == p)) }

/-- Remove the file at path `p` (`Path.unlink`, or the source half of a
move). -/
def FS.removeFile (fs : FS) (p : PyPath) : FS :=
  { fs with files := fs.files.filter (fun pr => !(pr.1 == p)) }

/-- Python `path.mkdir(exist_ok=True, parents=True)`: record the directory
if it is not already known.  (Ancestor directories are not tracked
separately; no claim depends on them.) -/
def FS.mkdirP (fs : FS) (p : PyPath) : FS :=
  if p ∈ fs.dirs then fs else { fs with dirs := fs.dirs ++ [p] }

/-- Python `path.rmdir()` on the directory the archive handler has just
created: remove it from the directory list (on the rollback path nothing was
extracted into it, so it is empty). -/
def FS.rmdir (fs : FS) (p : PyPath) : FS :=
  { fs with dirs := fs.dirs.filter (fun q => !(q == p)) }

/-- Python `shutil.move(str(src), str(dst))` where `dst` carries a fresh
file name: `os.rename`, which atomically replaces any existing regular file
at `dst`.  The move raises (modelled as `Except.error`) exactly when the
source file does not exist, the failure mode reachable in this model. -/
def FS.move (fs : FS) (src dst : PyPath) : Except Unit FS :=
  match fs.fileAt src with
  | none => .error ()
  | some v => .ok ((fs.removeFile src).setFile dst v)

/-- Python `Path.name`: the final component of a path. -/
def pathName (p : PyPath) : Str := p.getLastD []

/-- Python `s.replace(old, "")` as used at `main.py` line 143: delete the
occurrences of `old` scanning left to right without overlap.  When `old` is
empty Python inserts the empty replacement everywhere, which leaves `s`
unchanged. -/
def pyReplaceEmpty (s old : Str) : Str :=
  if h : old = [] then s
  else
    match s with
    | [] => []
    | c :: rest =>
      if old.isPrefixOf (c :: rest) then pyReplaceEmpty ((c :: rest).drop old.length) old
      else c :: pyReplaceEmpty rest old
termination_by s.length
decreasing_by
  · simp only [List.length_drop]
    have : 0 < old.length := List.length_pos.mpr h
    simp only [List.length_cons]
    omega
  · simp only [List.length_cons]
    omega

/-- The name of the unpack destination subfolder `handle_archive` computes at
`main.py` lines 142-144:
`normalize(file_name.name.replace(file_name.suffix, ""))`.  Note that
`str.replace` deletes every occurrence of the suffix substring in the name,
not only the trailing one. -/
def archiveFolderName (name : Str) : Str :=
  MediaHandler.normalize (pyReplaceEmpty name (pySuffix name))

/-- Embeds `MediaHandler.handle_media` (`main.py` lines 130-137): create the
target folder, then move the file to `target / normalize(file_name.name)`.
Every exception is caught and silently discarded (the `except` clause is a
bare `pass`; the source contains no logger call here), leaving the state as
it was when the exception was raised (after the `mkdir`). -/
def MediaHandler.handle_media (fs : FS) (file_name target_folder : PyPath) : FS :=
  let fs1 := fs.mkdirP target_folder
  match fs1.move file_name
      (target_folder ++ [MediaHandler.normalize (pathName file_name)]) with
  | .ok fs2 => fs2
  | .error _ => fs1

/-- Embeds `MediaHandler.process_files` (`main.py` lines 155-158): handle the
records one after the other; `handle_media` never raises, so every record of
the batch is attempted. -/
def MediaHandler.process_files (fs : FS) (file_list : List PyPath)
    (target_folder : PyPath) : FS :=
  file_list.foldl (fun a file => MediaHandler.handle_media a file target_folder) fs

/-- Outcome of one `shutil.unpack_archive` call, as determined by the
archive's name and content.  `readError` is `shutil.ReadError`, raised
before anything is extracted: for an unrecognized archive extension
(`_find_unpack_format` finds no registered format) or, for a tar, when
`tarfile.is_tarfile` rejects the file.  It is NOT the only failure mode of a
corrupt archive: a zip whose end-of-central-directory is intact but whose
member data is corrupt passes `zipfile.is_zipfile` and then raises
`zipfile.BadZipFile` or `zlib.error` from inside extraction, and a tar
truncated after a valid first header makes `extractall` raise
`tarfile.ReadError`; none of these is a `shutil.ReadError`, so
`except shutil.ReadError` does not catch them.  `unpackError extracted`
models such an exception thrown during extraction, after the members
`extracted` were already written.  `ok contents` delivers the archive's
member files.  With a recognized format but a missing archive file the call
raises `FileNotFoundError` instead, also uncaught (modelled in
`MediaHandler.handle_archive` directly). -/
inductive UnpackOutcome where
  | ok (contents : List (Str × Nat))
  | readError
  | unpackError (extracted : List (Str × Nat))

/-- Embeds `MediaHandler.handle_archive` (`main.py` lines 139-153): create
the target folder and the archive's destination subfolder; on
`shutil.ReadError` remove the subfolder again and return with the archive
untouched; on success extract the members into the subfolder and delete the
archive.  Only `shutil.ReadError` is caught: an exception thrown from inside
extraction (`zipfile.BadZipFile`, `zlib.error`, `tarfile.ReadError`)
propagates, so the result is `Except.error` carrying the state at the raise
(subfolder created, the already-extracted members written, archive intact) -
the `rmdir` rollback never runs.  A missing archive file with a recognized
format likewise raises an uncaught `FileNotFoundError` (the two `mkdir`
calls have already happened). -/
def MediaHandler.handle_archive (fs : FS) (file_name target_folder : PyPath)
    (outcome : UnpackOutcome) : Except FS FS :=
  let fs1 := fs.mkdirP target_folder
  let folder_for_file := target_folder ++ [archiveFolderName (pathName file_name)]
  let fs2 := fs1.mkdirP folder_for_file
  match outcome with
  | .readError => .ok (fs2.rmdir folder_for_file)
  | .ok contents =>
    match fs2.fileAt file_name with
    | none => .error fs2
    | some _ =>
      let fs3 := contents.foldl
        (fun a m => a.setFile (folder_for_file ++ [m.1]) m.2) fs2
      .ok (fs3.removeFile file_name)
  | .unpackError extracted =>
    match fs2.fileAt file_name with
    | none => .error fs2
    | some _ =>
      .error (extracted.foldl
        (fun a m => a.setFile (folder_for_file ++ [m.1]) m.2) fs2)

/-- Embeds `MediaHandler.process_archives` (`main.py` lines 176-179): handle
the archives one after the other.  An uncaught exception from
`handle_archive` aborts the loop; the executor swallows it (the returned
future is never examined), so the remaining archives are simply not
processed. -/
def MediaHandler.process_archives (fs : FS) (archives : List PyPath)
    (target_folder : PyPath) (oc : PyPath → UnpackOutcome) : FS :=
  match archives with
  | [] => fs
  | a :: rest =>
    match MediaHandler.handle_archive fs a target_folder (oc a) with
    | .ok fs' => MediaHandler.process_archives fs' rest target_folder oc
    | .error fsx => fsx

/-! ### Basic facts about the file-system operations -/

theorem lookup_filter_out {l : List (PyPath × Nat)} {p : PyPath} :
    (l.filter (fun pr => !(pr.1 == p))).lookup p = none := by
  induction l with
  | nil => rfl
  | cons a l ih =>
    obtain ⟨k, w⟩ := a
    by_cases h : k = p
    · subst h
      simpa [List.filter_cons] using ih
    · have hb : ((k, w).1 == p) = false := by
        simpa using h
      simp only [List.filter_cons, hb, Bool.not_false, if_pos]
      rw [List.lookup_cons]
      have : (p == k) = false := by
        simpa using Ne.symm h
      simp [this, ih]

theorem lookup_filter_ne {l : List (PyPath × Nat)} {p q : PyPath} (h : q ≠ p) :
    (l.filter (fun pr => !(pr.1 == p))).lookup q = l.lookup q := by
  induction l with
  | nil => rfl
  | cons a l ih =>
    obtain ⟨k, w⟩ := a
    by_cases hk : k = p
    · subst hk
      have hq : (q == k) = false := by simpa using h
      simp [List.filter_cons, List.lookup_cons, hq, ih]
    · have hb : ((k, w).1 == p) = false := by simpa using hk
      simp only [List.filter_cons, hb, Bool.not_false, if_pos]
      rw [List.lookup_cons, List.lookup_cons]
      cases hqk : (q == k) with
      | true => rfl
      | false => simpa using ih

theorem FS.fileAt_setFile_self (fs : FS) (p : PyPath) (v : Nat) :
    (fs.setFile p v).fileAt p = some v := by
  simp [FS.setFile, FS.fileAt, List.lookup_cons]

theorem FS.fileAt_setFile_ne (fs : FS) {p q : PyPath} (v : Nat) (h : q ≠ p) :
    (fs.setFile p v).fileAt q = fs.fileAt q := by
  unfold FS.setFile FS.fileAt
  simp only
  rw [List.lookup_cons]
  have : (q == p) = false := by simpa using h
  simp [this, lookup_filter_ne h]

theorem FS.fileAt_removeFile_self (fs : FS) (p : PyPath) :
    (fs.removeFile p).fileAt p = none := by
  simp [FS.removeFile, FS.fileAt, lookup_filter_out]

theorem FS.fileAt_removeFile_ne (fs : FS) {p q : PyPath} (h : q ≠ p) :
    (fs.removeFile p).fileAt q = fs.fileAt q := by
  simp [FS.removeFile, FS.fileAt, lookup_filter_ne h]

theorem FS.fileAt_mkdirP (fs : FS) (p q : PyPath) :
    (fs.mkdirP p).fileAt q = fs.fileAt q := by
  unfold FS.mkdirP
  by_cases h : p ∈ fs.dirs <;> simp [h, FS.fileAt]

theorem FS.fileAt_rmdir (fs : FS) (p q : PyPath) :
    (fs.rmdir p).fileAt q = fs.fileAt q := rfl

theorem FS.files_mkdirP (fs : FS) (p : PyPath) : (fs.mkdirP p).files = fs.files := by
  unfold FS.mkdirP
  by_cases h : p ∈ fs.dirs <;> simp [h]

theorem FS.log_mkdirP (fs : FS) (p : PyPath) : (fs.mkdirP p).log = fs.log := by
  unfold FS.mkdirP
  by_cases h : p ∈ fs.dirs <;> simp [h]

theorem FS.dirs_setFile (fs : FS) (p : PyPath) (v : Nat) :
    (fs.setFile p v).dirs = fs.dirs := rfl

theorem FS.dirs_removeFile (fs : FS) (p : PyPath) :
    (fs.removeFile p).dirs = fs.dirs := rfl

theorem FS.mem_dirs_mkdirP_self (fs : FS) (p : PyPath) : p ∈ (fs.mkdirP p).dirs := by
  unfold FS.mkdirP
  by_cases h : p ∈ fs.dirs <;> simp [h]

theorem FS.not_mem_dirs_rmdir (fs : FS) (p : PyPath) : p ∉ (fs.rmdir p).dirs := by
  unfold FS.rmdir
  intro hmem
  simp only [List.mem_filter] at hmem
  simpa using hmem.2

/-- The file-system state a `handle_archive` call leaves behind, whether it
returns normally or propagates an exception. -/
def exceptState : Except FS FS → FS
  | .ok fs => fs
  | .error fs => fs

theorem exceptState_ok (fs : FS) : exceptState (Except.ok fs) = fs := rfl

theorem exceptState_error (fs : FS) : exceptState (Except.error fs) = fs := rfl

theorem foldl_setFile_dirs (fs : FS) (base : PyPath) (contents : List (Str × Nat)) :
    (contents.foldl (fun a m => a.setFile (base ++ [m.1]) m.2) fs).dirs = fs.dirs := by
  induction contents generalizing fs with
  | nil => rfl
  | cons m rest ih => rw [List.foldl_cons, ih]; rfl

theorem foldl_setFile_fileAt (base : PyPath) (q : PyPath) :
    ∀ (l : List (Str × Nat)) (fs : FS), (∀ m ∈ l, q ≠ base ++ [m.1]) →
      (l.foldl (fun a m => a.setFile (base ++ [m.1]) m.2) fs).fileAt q
        = fs.fileAt q := by
  intro l
  induction l with
  | nil => intro fs _; rfl
  | cons m rest ih =>
    intro fs h
    rw [List.foldl_cons,
      ih _ (fun m' hm' => h m' (List.mem_cons_of_mem _ hm')),
      FS.fileAt_setFile_ne _ _ (h m (List.mem_cons_self _ _))]

/-! ### The archive destination folder name -/

theorem pyReplaceEmpty_nil (old : Str) : pyReplaceEmpty [] old = [] := by
  rw [pyReplaceEmpty.eq_def]
  by_cases h : old = [] <;> simp [h]

theorem pyReplaceEmpty_cons_no_match {c : Char} {rest old : Str} (hold : old ≠ [])
    (h : ¬ old.isPrefixOf (c :: rest) = true) :
    pyReplaceEmpty (c :: rest) old = c :: pyReplaceEmpty rest old := by
  rw [pyReplaceEmpty.eq_def, dif_neg hold]
  simp only
  rw [if_neg h]

theorem pyReplaceEmpty_cons_match {c : Char} {rest old : Str} (hold : old ≠ [])
    (h : old.isPrefixOf (c :: rest) = true) :
    pyReplaceEmpty (c :: rest) old = pyReplaceEmpty ((c :: rest).drop old.length) old := by
  rw [pyReplaceEmpty.eq_def, dif_neg hold]
  simp only
  rw [if_pos h]

theorem pyReplaceEmpty_single_occurrence (ext : Str) (hext : ext ≠ []) :
    ∀ pre : Str,
    (∀ k, k < pre.length → ¬ ext.isPrefixOf ((pre ++ ext).drop k) = true) →
    pyReplaceEmpty (pre ++ ext) ext = pre := by
  intro pre
  induction pre with
  | nil =>
    intro _
    rw [List.nil_append]
    obtain ⟨c, rest, hce⟩ := List.exists_cons_of_ne_nil hext
    subst hce
    rw [pyReplaceEmpty_cons_match hext
      (List.isPrefixOf_iff_prefix.mpr (List.prefix_refl _))]
    rw [List.drop_length, pyReplaceEmpty_nil]
  | cons a pre ih =>
    intro honce
    have h0 : ¬ ext.isPrefixOf (((a :: pre) ++ ext).drop 0) = true :=
      honce 0 (by simp)
    rw [List.drop_zero, List.cons_append] at h0
    rw [List.cons_append, pyReplaceEmpty_cons_no_match hext h0]
    have honce2 : ∀ k, k < pre.length →
        ¬ ext.isPrefixOf ((pre ++ ext).drop k) = true := by
      intro k hk
      have hs := honce (k + 1) (by simpa using Nat.succ_lt_succ hk)
      rwa [List.cons_append, List.drop_succ_cons] at hs
    rw [ih honce2]

/-- C2 counterexample: a corrupt archive whose failure is raised from inside
extraction - a zip with an intact end-of-central-directory but a corrupt
member raises `zipfile.BadZipFile`/`zlib.error`, a tar truncated after a
valid first header makes `extractall` raise `tarfile.ReadError` - is not a
`shutil.ReadError`, so `except shutil.ReadError` (`main.py` line 150) does
not catch it and the `rmdir` rollback never runs: on the concrete state
holding `a.zip` (content 7), `handle_archive` propagates the exception
(`isOk = false`) and the just-created subfolder `archives/a` is still
present afterwards, refuting the claim's `the just-created destination
subfolder is removed` for this unpack-failure mode (the archive itself does
survive untouched). -/
theorem handle_archive_unpack_error_keeps_subfolder :
    (MediaHandler.handle_archive ⟨[([['a','.','z','i','p']], 7)], [], []⟩
        [['a','.','z','i','p']] [['a','r','c','h','i','v','e','s']]
        (.unpackError [])).isOk = false ∧
    [['a','r','c','h','i','v','e','s'], ['a']] ∈
      (exceptState (MediaHandler.handle_archive
        ⟨[([['a','.','z','i','p']], 7)], [], []⟩
        [['a','.','z','i','p']] [['a','r','c','h','i','v','e','s']]
        (.unpackError []))).dirs ∧
    (exceptState (MediaHandler.handle_archive
        ⟨[([['a','.','z','i','p']], 7)], [], []⟩
        [['a','.','z','i','p']] [['a','r','c','h','i','v','e','s']]
        (.unpackError []))).fileAt [['a','.','z','i','p']] = some 7 := by
  have hrep : pyReplaceEmpty ['a','.','z','i','p'] ['.','z','i','p'] = ['a'] :=
    pyReplaceEmpty_single_occurrence ['.','z','i','p'] (by decide) ['a'] (by decide)
  have hfold : archiveFolderName (pathName [['a','.','z','i','p']]) = ['a'] := by
    unfold archiveFolderName
    rw [show pathName [['a','.','z','i','p']] = ['a','.','z','i','p'] from rfl]
    rw [show pySuffix ['a','.','z','i','p'] = ['.','z','i','p'] by decide]
    rw [hrep]
    decide
  have hha : MediaHandler.handle_archive ⟨[([['a','.','z','i','p']], 7)], [], []⟩
      [['a','.','z','i','p']] [['a','r','c','h','i','v','e','s']]
      (.unpackError [])
      = .error ⟨[([['a','.','z','i','p']], 7)],
          [[['a','r','c','h','i','v','e','s']],
           [['a','r','c','h','i','v','e','s'], ['a']]], []⟩ := by
    unfold MediaHandler.handle_archive
    rw [hfold]
    rfl
  rw [hha]
  exact ⟨rfl, by decide, rfl⟩

/-- C2 (amended): `handle_archive` catches only `shutil.ReadError`.  For
every archive record whose file exists: a `shutil.ReadError` failure
(unrecognized extension, or a file the format's checker rejects outright)
makes it return normally with the just-created destination subfolder
removed and the original archive file untouched; a successful unpack makes
it return normally with the original archive file deleted; but an exception
raised from inside extraction (corrupt zip member, truncated tar) is NOT
caught - it propagates, the rollback never runs, and the state at the raise
keeps the subfolder (with whatever members were already extracted) while
the original archive file still survives untouched. -/
theorem handle_archive_rollback_and_delete (fs : FS)
    (file_name target_folder : PyPath) (contents : List (Str × Nat)) (v : Nat)
    (extracted : List (Str × Nat))
    (hsrc : fs.fileAt file_name = some v)
    (hne : ∀ m ∈ extracted, file_name ≠
      (target_folder ++ [archiveFolderName (pathName file_name)]) ++ [m.1]) :
    (MediaHandler.handle_archive fs file_name target_folder .readError).isOk
        = true ∧
    (exceptState (MediaHandler.handle_archive fs file_name target_folder
        .readError)).fileAt file_name = some v ∧
    (target_folder ++ [archiveFolderName (pathName file_name)]) ∉
      (exceptState (MediaHandler.handle_archive fs file_name target_folder
        .readError)).dirs ∧
    (MediaHandler.handle_archive fs file_name target_folder (.ok contents)).isOk
        = true ∧
    (exceptState (MediaHandler.handle_archive fs file_name target_folder
        (.ok contents))).fileAt file_name = none ∧
    (MediaHandler.handle_archive fs file_name target_folder
        (.unpackError extracted)).isOk = false ∧
    (exceptState (MediaHandler.handle_archive fs file_name target_folder
        (.unpackError extracted))).fileAt file_name = some v ∧
    (target_folder ++ [archiveFolderName (pathName file_name)]) ∈
      (exceptState (MediaHandler.handle_archive fs file_name target_folder
        (.unpackError extracted))).dirs := by
  have hsrc2 : ((fs.mkdirP target_folder).mkdirP
      (target_folder ++ [archiveFolderName (pathName file_name)])).fileAt file_name
      = some v := by
    rw [FS.fileAt_mkdirP, FS.fileAt_mkdirP]
    exact hsrc
  have heq : MediaHandler.handle_archive fs file_name target_folder (.ok contents)
      = .ok ((contents.foldl
          (fun a m => a.setFile
            ((target_folder ++ [archiveFolderName (pathName file_name)]) ++ [m.1])
            m.2)
          ((fs.mkdirP target_folder).mkdirP
            (target_folder ++ [archiveFolderName (pathName file_name)]))).removeFile
          file_name) := by
    unfold MediaHandler.handle_archive
    simp only [hsrc2]
  have hequ : MediaHandler.handle_archive fs file_name target_folder
      (.unpackError extracted)
      = .error (extracted.foldl
          (fun a m => a.setFile
            ((target_folder ++ [archiveFolderName (pathName file_name)]) ++ [m.1])
            m.2)
          ((fs.mkdirP target_folder).mkdirP
            (target_folder ++ [archiveFolderName (pathName file_name)]))) := by
    unfold MediaHandler.handle_archive
    simp only [hsrc2]
  refine ⟨rfl, ?_, ?_, ?_, ?_, ?_, ?_, ?_⟩
  · show (((fs.mkdirP target_folder).mkdirP _).rmdir _).fileAt file_name = some v
    rw [FS.fileAt_rmdir, FS.fileAt_mkdirP, FS.fileAt_mkdirP]
    exact hsrc
  · exact FS.not_mem_dirs_rmdir _ _
  · rw [heq]
    rfl
  · rw [heq]
    exact FS.fileAt_removeFile_self _ _
  · rw [hequ]
    rfl
  · rw [hequ, exceptState_error,
      foldl_setFile_fileAt _ _ extracted _ hne]
    exact hsrc2
  · rw [hequ, exceptState_error, foldl_setFile_dirs]
    exact FS.mem_dirs_mkdirP_self _ _

/-- C7 counterexample: moving a file that does not exist fails, the failure
is swallowed by the bare `except ... pass` of `handle_media` and nothing is
ever written to the log - the claim's conjunct that the failure is logged is
false on the code. -/
theorem handle_media_failure_unlogged :
    (MediaHandler.process_files ⟨[], [], []⟩ [[['g','o','n','e','.','m','p','3']]]
        [['a','u','d','i','o']]).log = [] ∧
    ((⟨[], [], []⟩ : FS).mkdirP [['a','u','d','i','o']]).move
        [['g','o','n','e','.','m','p','3']]
        ([['a','u','d','i','o']]
          ++ [MediaHandler.normalize (pathName [['g','o','n','e','.','m','p','3']])])
      = .error () := by
  exact ⟨rfl, rfl⟩

/-- C7 amended: a failure moving one file is caught and silently discarded
(the `except` clause of `handle_media` is a bare `pass`: nothing is logged)
and does not abort processing of the remaining files in the batch - the
failing record contributes only the `mkdir` side effect and every subsequent
record is still attempted. -/
theorem process_files_failure_isolated (fs : FS) (pre suf : List PyPath)
    (f target_folder : PyPath)
    (hfail : ((MediaHandler.process_files fs pre target_folder).mkdirP
        target_folder).move f
        (target_folder ++ [MediaHandler.normalize (pathName f)]) = .error ()) :
    MediaHandler.process_files fs (pre ++ f :: suf) target_folder
      = MediaHandler.process_files
          ((MediaHandler.process_files fs pre target_folder).mkdirP target_folder)
          suf target_folder ∧
    (MediaHandler.handle_media (MediaHandler.process_files fs pre target_folder)
        f target_folder).log
      = (MediaHandler.process_files fs pre target_folder).log := by
  have hm : MediaHandler.handle_media
      (MediaHandler.process_files fs pre target_folder) f target_folder
      = (MediaHandler.process_files fs pre target_folder).mkdirP target_folder := by
    unfold MediaHandler.handle_media
    simp only [hfail]
  constructor
  · show List.foldl _ fs (pre ++ f :: suf) = _
    rw [List.foldl_append, List.foldl_cons]
    exact congrArg
      (fun z => List.foldl
        (fun a file => MediaHandler.handle_media a file target_folder) z suf) hm
  · rw [hm, FS.log_mkdirP]

/-- Witness for C7 amended at a concrete batch: the first record's file does
not exist, its move fails, and the second record is still processed. -/
theorem process_files_failure_isolated_witness :
    MediaHandler.process_files (⟨[], [], []⟩ : FS)
        ([] ++ [['g','o','n','e','.','m','p','3']] :: [[['b','.','m','p','3']]])
        [['a','u','d','i','o']]
      = MediaHandler.process_files
          ((MediaHandler.process_files ⟨[], [], []⟩ [] [['a','u','d','i','o']]).mkdirP
            [['a','u','d','i','o']])
          [[['b','.','m','p','3']]] [['a','u','d','i','o']] ∧
    (MediaHandler.handle_media
        (MediaHandler.process_files ⟨[], [], []⟩ [] [['a','u','d','i','o']])
        [['g','o','n','e','.','m','p','3']] [['a','u','d','i','o']]).log
      = (MediaHandler.process_files ⟨[], [], []⟩ [] [['a','u','d','i','o']]).log :=
  process_files_failure_isolated ⟨[], [], []⟩ [] [[['b','.','m','p','3']]]
    [['g','o','n','e','.','m','p','3']] [['a','u','d','i','o']] rfl


/-- C6 counterexample: for an archive named `a.zip.zip` the suffix is `.zip`,
and `str.replace` at `main.py` line 143 deletes both occurrences of it, so
`handle_archive` names the unpack subfolder `a` - not `a.zip`, the stem with
exactly its trailing extension stripped (whose normalization leaves it
unchanged) that the claim demands.  The last conjunct runs `handle_archive`
itself on a concrete state and shows the full state it produces, with the
created subfolder named `a`. -/
theorem archive_folder_name_strips_all_occurrences :
    pySuffix ['a','.','z','i','p','.','z','i','p'] = ['.','z','i','p'] ∧
    archiveFolderName ['a','.','z','i','p','.','z','i','p'] = ['a'] ∧
    MediaHandler.normalize ['a','.','z','i','p'] = ['a','.','z','i','p'] ∧
    (['a'] : Str) ≠ ['a','.','z','i','p'] ∧
    MediaHandler.handle_archive
        ⟨[([['a','.','z','i','p','.','z','i','p']], 1)], [], []⟩
        [['a','.','z','i','p','.','z','i','p']] [['d','s','t']] (.ok [])
      = .ok ⟨[], [[['d','s','t']], [['d','s','t'], ['a']]], []⟩ := by
  have hold : (['.','z','i','p'] : Str) ≠ [] := by decide
  have hrep : pyReplaceEmpty ['a','.','z','i','p','.','z','i','p'] ['.','z','i','p']
      = ['a'] := by
    rw [show (['a','.','z','i','p','.','z','i','p'] : Str)
        = 'a' :: ['.','z','i','p','.','z','i','p'] from rfl]
    rw [pyReplaceEmpty_cons_no_match hold (by decide)]
    rw [show (['.','z','i','p','.','z','i','p'] : Str)
        = '.' :: ['z','i','p','.','z','i','p'] from rfl]
    rw [pyReplaceEmpty_cons_match hold (by decide)]
    rw [show (('.' :: ['z','i','p','.','z','i','p']).drop
        (['.','z','i','p'] : Str).length) = '.' :: ['z','i','p'] from rfl]
    rw [pyReplaceEmpty_cons_match hold (by decide)]
    rw [show (('.' :: ['z','i','p']).drop (['.','z','i','p'] : Str).length)
        = [] from rfl]
    rw [pyReplaceEmpty_nil]
  have hfold : archiveFolderName ['a','.','z','i','p','.','z','i','p'] = ['a'] := by
    unfold archiveFolderName
    rw [show pySuffix ['a','.','z','i','p','.','z','i','p'] = ['.','z','i','p']
      by decide]
    rw [hrep]
    decide
  refine ⟨by decide, hfold, by decide, by decide, ?_⟩
  unfold MediaHandler.handle_archive
  rw [show pathName [['a','.','z','i','p','.','z','i','p']]
      = ['a','.','z','i','p','.','z','i','p'] from rfl]
  rw [hfold]
  rfl

/-- C6 amended: `handle_archive` names the unpack destination subfolder
`normalize(name.replace(suffix, ""))`, where `str.replace` removes every
occurrence of the suffix substring; when the suffix occurs in the archive's
name only once - as its trailing extension - this is exactly the normalized
stem with the trailing extension stripped, and the subfolder of that name
is created under the target folder. -/
theorem handle_archive_folder_named_by_stem (fs : FS)
    (file_name target_folder : PyPath) (contents : List (Str × Nat)) (pre : Str)
    (hname : pathName file_name = pre ++ pySuffix (pathName file_name))
    (hext : pySuffix (pathName file_name) ≠ [])
    (honce : ∀ k, k < pre.length →
      ¬ (pySuffix (pathName file_name)).isPrefixOf
          ((pre ++ pySuffix (pathName file_name)).drop k) = true) :
    archiveFolderName (pathName file_name) = MediaHandler.normalize pre ∧
    target_folder ++ [MediaHandler.normalize pre] ∈
      (exceptState (MediaHandler.handle_archive fs file_name target_folder
        (.ok contents))).dirs := by
  have hafn : archiveFolderName (pathName file_name)
      = MediaHandler.normalize pre := by
    have h2 : pySuffix (pre ++ pySuffix (pathName file_name))
        = pySuffix (pathName file_name) := by rw [← hname]
    unfold archiveFolderName
    rw [hname, h2]
    rw [pyReplaceEmpty_single_occurrence _ hext _ honce]
  refine ⟨hafn, ?_⟩
  simp only [MediaHandler.handle_archive, hafn]
  cases hfa : ((fs.mkdirP target_folder).mkdirP
      (target_folder ++ [MediaHandler.normalize pre])).fileAt file_name with
  | none =>
    simp only [hfa, exceptState]
    exact FS.mem_dirs_mkdirP_self _ _
  | some v =>
    simp only [hfa, exceptState]
    rw [FS.dirs_removeFile, foldl_setFile_dirs]
    exact FS.mem_dirs_mkdirP_self _ _

/-- Witness for C6 amended at the archive name `notes.zip`: the suffix
`.zip` occurs only as the trailing extension, and the computed subfolder
name is the normalized stem `notes`. -/
theorem handle_archive_folder_named_by_stem_witness :
    archiveFolderName (pathName [['n','o','t','e','s','.','z','i','p']])
      = MediaHandler.normalize ['n','o','t','e','s'] :=
  (handle_archive_folder_named_by_stem ⟨[], [], []⟩
    [['n','o','t','e','s','.','z','i','p']] [['d','s','t']] []
    ['n','o','t','e','s'] (by decide) (by decide) (by decide)).1

/-- Witness for C2 at a concrete state holding one archive `a.zip` with
content identity 7, with one member `m` extracted before the propagating
failure. -/
theorem handle_archive_rollback_and_delete_witness :
    (MediaHandler.handle_archive ⟨[([['a','.','z','i','p']], 7)], [], []⟩
        [['a','.','z','i','p']] [['d','s','t']] .readError).isOk = true ∧
    (exceptState (MediaHandler.handle_archive ⟨[([['a','.','z','i','p']], 7)], [], []⟩
        [['a','.','z','i','p']] [['d','s','t']] .readError)).fileAt
        [['a','.','z','i','p']] = some 7 ∧
    ([['d','s','t']] ++ [archiveFolderName (pathName [['a','.','z','i','p']])]) ∉
      (exceptState (MediaHandler.handle_archive ⟨[([['a','.','z','i','p']], 7)], [], []⟩
        [['a','.','z','i','p']] [['d','s','t']] .readError)).dirs ∧
    (MediaHandler.handle_archive ⟨[([['a','.','z','i','p']], 7)], [], []⟩
        [['a','.','z','i','p']] [['d','s','t']] (.ok [])).isOk = true ∧
    (exceptState (MediaHandler.handle_archive ⟨[([['a','.','z','i','p']], 7)], [], []⟩
        [['a','.','z','i','p']] [['d','s','t']] (.ok []))).fileAt
        [['a','.','z','i','p']] = none ∧
    (MediaHandler.handle_archive ⟨[([['a','.','z','i','p']], 7)], [], []⟩
        [['a','.','z','i','p']] [['d','s','t']]
        (.unpackError [(['m'], 3)])).isOk = false ∧
    (exceptState (MediaHandler.handle_archive ⟨[([['a','.','z','i','p']], 7)], [], []⟩
        [['a','.','z','i','p']] [['d','s','t']]
        (.unpackError [(['m'], 3)]))).fileAt [['a','.','z','i','p']] = some 7 ∧
    ([['d','s','t']] ++ [archiveFolderName (pathName [['a','.','z','i','p']])]) ∈
      (exceptState (MediaHandler.handle_archive ⟨[([['a','.','z','i','p']], 7)], [], []⟩
        [['a','.','z','i','p']] [['d','s','t']]
        (.unpackError [(['m'], 3)]))).dirs :=
  handle_archive_rollback_and_delete ⟨[([['a','.','z','i','p']], 7)], [], []⟩
    [['a','.','z','i','p']] [['d','s','t']] [] 7 [(['m'], 3)] rfl (by decide)

/-! ### Factorization (`factorize.py`) -/

/-- CPython's int-to-float conversion: round the integer to the nearest
IEEE-754 binary64 value (53 significant bits, round-to-nearest,
ties-to-even), raising `OverflowError` (`none`) when the rounded value
reaches `2 ^ 1024`.  A value below `2 ^ 53` is exact; otherwise the number is
rounded to a multiple of `2 ^ (log2 n - 52)`. -/
def floatOfNat (n : Nat) : Option Nat :=
  if n < 2 ^ 53 then some n
  else
    let e := n.log2 - 52
    let q := n / 2 ^ e
    let r := n % 2 ^ e
    let q' :=
      if 2 * r > 2 ^ e then q + 1
      else if 2 * r < 2 ^ e then q
      else if q % 2 = 0 then q else q + 1
    let v := q' * 2 ^ e
    if v < 2 ^ 1024 then some v else none

/-- The integer part of the correctly rounded IEEE-754 binary64 square root
of the exact value `m ≥ 1` (the platform `sqrt`, which IEEE 754 requires to
be correctly rounded; CPython evaluates `x ** 0.5` through the C library,
whose `pow(x, 0.5)` computes the square root).  Derivation: with
`s = ⌊√m⌋` and `k = ⌊log2 s⌋` we have `2^k ≤ √m < 2^(k+1)`, so binary64
values are spaced `2^(k-52)` apart there and the result is the nearest
multiple `t * 2^(k-52)` of the true root.  For `k ≤ 52` the comparison with
the midpoint scales to `4 * m * 4^(52-k)` versus `(2u+1)^2`, which are never
equal (even versus odd - no tie); for `k ≥ 53` it scales to `m` versus
`(2u+1)^2 * 4^(k-53)`, with ties broken to the even candidate. -/
def floatSqrt (m : Nat) : Nat :=
  if m = 0 then 0
  else
    let s := Nat.sqrt m
    let k := s.log2
    if k ≤ 52 then
      let M := m * 4 ^ (52 - k)
      let u := Nat.sqrt M
      let t := if 4 * M > (2 * u + 1) ^ 2 then u + 1 else u
      t / 2 ^ (52 - k)
    else
      let u := s / 2 ^ (k - 52)
      let half := (2 * u + 1) ^ 2 * 4 ^ (k - 53)
      let t :=
        if m > half then u + 1
        else if m < half then u
        else if u % 2 = 0 then u else u + 1
      t * 2 ^ (k - 52)

/-- Embeds `int(number ** 0.5)` at `factorize.py` line 106 on IEEE-754
doubles: convert `number` to a double (possibly raising `OverflowError`,
`none`), take the correctly rounded square root, truncate to an integer. -/
def pyIntSqrt (number : Nat) : Option Nat :=
  (floatOfNat number).map floatSqrt

/-- One iteration of the trial-division loop at `factorize.py` lines
106-110: when `num` divides `number`, append `num`, and also
`number // num` when the two differ. -/
def Factorize.factorsFor (number num : Nat) : List Nat :=
  if number % num = 0 then
    if num ≠ number / num then [num, number / num] else [num]
  else []

/-- Python `sorted`, modelled as insertion sort: on a list of natural
numbers every comparison-correct sort (Timsort included) returns the same
ascending list. -/
def pySorted (l : List Nat) : List Nat := List.insertionSort (· ≤ ·) l

/-- Embeds `Factorize.factorize` (`factorize.py` lines 97-113): trial
division of `number` by every `num` in `range(1, int(number**0.5) + 1)`;
the `try` block catches the `OverflowError` raised by `number ** 0.5` when
the float conversion overflows, logs it, and the function returns
`sorted(factors)` with `factors` still the empty list. -/
def Factorize.factorize (number : Nat) : List Nat :=
  match pyIntSqrt number with
  | none => pySorted []
  | some b => pySorted ((List.range' 1 b).flatMap (Factorize.factorsFor number))

theorem sqrt_eq_exact {n s : Nat} (h1 : s * s ≤ n) (h2 : n < (s + 1) * (s + 1)) :
    Nat.sqrt n = s := by
  have ha : s ≤ Nat.sqrt n := Nat.le_sqrt.mpr h1
  have hb : Nat.sqrt n < s + 1 := Nat.sqrt_lt.mpr h2
  omega

theorem log2_eq_exact {n k : Nat} (hn : n ≠ 0) (h1 : 2 ^ k ≤ n)
    (h2 : n < 2 ^ (k + 1)) : Nat.log2 n = k := by
  have ha := (Nat.le_log2 hn).mpr h1
  have hb := (Nat.log2_lt hn).mpr h2
  omega

set_option maxRecDepth 4000 in
theorem floatOfNat_two_pow_1024 : floatOfNat (2 ^ 1024) = none := by
  have hlog : Nat.log2 (2 ^ 1024) = 1024 :=
    log2_eq_exact (by positivity) (le_refl _)
      (Nat.pow_lt_pow_right (by norm_num) (by norm_num))
  have hq : (2 : Nat) ^ 1024 / 2 ^ 972 = 2 ^ 52 := by
    rw [Nat.pow_div (by norm_num) (by norm_num)]
  have hr : (2 : Nat) ^ 1024 % 2 ^ 972 = 0 :=
    Nat.mod_eq_zero_of_dvd (pow_dvd_pow 2 (by norm_num))
  have hlt : ¬ ((2 : Nat) ^ 1024 < 2 ^ 53) :=
    Nat.not_lt.mpr (Nat.pow_le_pow_right (by norm_num) (by norm_num))
  unfold floatOfNat
  rw [if_neg hlt]
  simp only [hlog, show (1024 : Nat) - 52 = 972 from rfl, hq, hr,
    show (2 : Nat) * 0 = 0 from rfl]
  have hq2 : (if (0 : Nat) > 2 ^ 972 then 2 ^ 52 + 1
      else if 0 < 2 ^ 972 then 2 ^ 52
      else if 2 ^ 52 % 2 = 0 then 2 ^ 52 else 2 ^ 52 + 1) = 2 ^ 52 := by
    rw [if_neg (by simp), if_pos (pow_pos (by norm_num) 972)]
  rw [hq2]
  rw [← pow_add]
  rw [show 52 + 972 = 1024 from rfl]
  rw [if_neg (lt_irrefl _)]

theorem factorize_of_bound_none {n : Nat} (h : pyIntSqrt n = none) :
    Factorize.factorize n = [] := by
  unfold Factorize.factorize
  rw [h]
  rfl

/-- C10 counterexample: at `number = 2 ^ 1024` the expression
`number ** 0.5` raises `OverflowError` (the float conversion overflows), the
`except` block swallows it, and `factorize` returns the empty list - which
misses every divisor of `2 ^ 1024`, in particular 1. -/
theorem factorize_overflow_returns_nothing :
    Factorize.factorize (2 ^ 1024) = [] ∧ (1 : Nat) ∣ 2 ^ 1024 ∧
    (1 : Nat) ∉ Factorize.factorize (2 ^ 1024) := by
  have hnone : pyIntSqrt (2 ^ 1024) = none := by
    unfold pyIntSqrt
    rw [floatOfNat_two_pow_1024]
    rfl
  have hfz := factorize_of_bound_none hnone
  refine ⟨hfz, one_dvd _, ?_⟩
  rw [hfz]
  simp

theorem mem_factorsFor {number num d : Nat} :
    d ∈ Factorize.factorsFor number num ↔
      number % num = 0 ∧
        (d = num ∨ (num ≠ number / num ∧ d = number / num)) := by
  unfold Factorize.factorsFor
  by_cases h : number % num = 0
  · rw [if_pos h]
    by_cases hq : num ≠ number / num
    · rw [if_pos hq]
      simp only [List.mem_cons, List.mem_singleton, h, true_and]
      tauto
    · rw [if_neg hq]
      push_neg at hq
      simp only [List.mem_singleton, h, true_and]
      constructor
      · intro hd
        exact Or.inl hd
      · rintro (hd | ⟨hne, hd⟩)
        · exact hd
        · exact absurd hq hne
  · rw [if_neg h]
    simp [h]

theorem mem_trial_list {number d : Nat} (h1 : 1 ≤ number) :
    (d ∈ (List.range' 1 (Nat.sqrt number)).flatMap (Factorize.factorsFor number))
      ↔ d ∣ number := by
  rw [List.mem_flatMap]
  constructor
  · rintro ⟨num, hnum, hd⟩
    rw [mem_factorsFor] at hd
    obtain ⟨hmod, hcase⟩ := hd
    have hdvd : num ∣ number := Nat.dvd_of_mod_eq_zero hmod
    rcases hcase with rfl | ⟨_, rfl⟩
    · exact hdvd
    · exact Nat.div_dvd_of_dvd hdvd
  · intro hdvd
    have hdpos : 0 < d := Nat.pos_of_dvd_of_pos hdvd (by omega)
    have hdle : d ≤ number := Nat.le_of_dvd (by omega) hdvd
    by_cases hble : d ≤ Nat.sqrt number
    · refine ⟨d, ?_, ?_⟩
      · rw [List.mem_range'_1]
        omega
      · rw [mem_factorsFor]
        exact ⟨Nat.mod_eq_zero_of_dvd hdvd, Or.inl rfl⟩
    · push_neg at hble
      have hcd : number / d ∣ number := Nat.div_dvd_of_dvd hdvd
      have hmulc : number / d * d = number := Nat.div_mul_cancel hdvd
      have hcpos : 0 < number / d := by
        rcases Nat.eq_zero_or_pos (number / d) with h0 | h0
        · rw [h0] at hmulc
          omega
        · exact h0
      have hkey : number / d ≤ Nat.sqrt number := by
        by_contra hgt
        push_neg at hgt
        have hmul : (Nat.sqrt number + 1) * (Nat.sqrt number + 1)
            ≤ number / d * d := Nat.mul_le_mul (by omega) (by omega)
        rw [hmulc] at hmul
        have hlts := Nat.lt_succ_sqrt number
        rw [Nat.succ_eq_add_one] at hlts
        omega
      refine ⟨number / d, ?_, ?_⟩
      · rw [List.mem_range'_1]
        omega
      · rw [mem_factorsFor]
        refine ⟨Nat.mod_eq_zero_of_dvd hcd, Or.inr ⟨?_, ?_⟩⟩
        · rw [Nat.div_div_self hdvd (by omega)]
          omega
        · rw [Nat.div_div_self hdvd (by omega)]

theorem nodup_trial_list {number : Nat} (h1 : 1 ≤ number) :
    ((List.range' 1 (Nat.sqrt number)).flatMap
      (Factorize.factorsFor number)).Nodup := by
  rw [List.nodup_flatMap]
  constructor
  · intro num _
    unfold Factorize.factorsFor
    by_cases h : number % num = 0
    · rw [if_pos h]
      by_cases hq : num ≠ number / num
      · rw [if_pos hq]
        simp [hq]
      · rw [if_neg hq]
        simp
    · rw [if_neg h]
      simp
  · apply List.Pairwise.imp_of_mem ?_ (List.pairwise_lt_range' 1 (Nat.sqrt number) 1)
    intro a b ha hb hab d hda hdb
    rw [List.mem_range'_1] at ha hb
    rw [mem_factorsFor] at hda hdb
    obtain ⟨hmoda, hcasea⟩ := hda
    obtain ⟨hmodb, hcaseb⟩ := hdb
    have hdvda := Nat.dvd_of_mod_eq_zero hmoda
    have hdvdb := Nat.dvd_of_mod_eq_zero hmodb
    have hsq := Nat.sqrt_le number
    have hs1 : 1 ≤ Nat.sqrt number := Nat.le_sqrt.mpr (by omega)
    have hmula : number / a * a = number := Nat.div_mul_cancel hdvda
    have hmulb : number / b * b = number := Nat.div_mul_cancel hdvdb
    have hbnd : ∀ num, 1 ≤ num → num < 1 + Nat.sqrt number → num ∣ number →
        Nat.sqrt number ≤ number / num := by
      intro num hge hlt hdvd
      have h2 : number / Nat.sqrt number ≤ number / num :=
        Nat.div_le_div_left (by omega) (by omega)
      have h3 : Nat.sqrt number ≤ number / Nat.sqrt number :=
        (Nat.le_div_iff_mul_le (by omega)).mpr hsq
      omega
    have hba := hbnd b (by omega) (by omega) hdvdb
    have haa := hbnd a (by omega) (by omega) hdvda
    rcases hcasea with rfl | ⟨hnea, rfl⟩
    · rcases hcaseb with hdb2 | ⟨hneb, hdb2⟩
      · omega
      · rw [← hdb2] at hba
        have hds : d = Nat.sqrt number := by omega
        rw [← hdb2, hds] at hmulb
        have hsq2 : Nat.sqrt number * Nat.sqrt number
            ≤ Nat.sqrt number * b := by
          rw [hmulb]
          exact hsq
        have hsb : Nat.sqrt number ≤ b :=
          Nat.le_of_mul_le_mul_left hsq2 (by omega)
        omega
    · rcases hcaseb with hdb2 | ⟨hneb, hdb2⟩
      · rw [hdb2] at haa
        have hbs : b = Nat.sqrt number := by omega
        rw [hdb2, hbs] at hmula
        have hsq2 : Nat.sqrt number * Nat.sqrt number
            ≤ Nat.sqrt number * a := by
          rw [hmula]
          exact hsq
        have hsa : Nat.sqrt number ≤ a :=
          Nat.le_of_mul_le_mul_left hsq2 (by omega)
        omega
      · rw [← hdb2] at hmulb
        have heq : number / a * a = number / a * b := by
          rw [hmula, hmulb]
        have hab2 : a = b := Nat.eq_of_mul_eq_mul_left (by omega) heq
        omega

/-- C10 amended: for every `n ≥ 1` for which the floating-point loop bound
`int(n ** 0.5)` equals the integer square root `⌊√n⌋` (which holds for every
`n` small enough for the double rounding to be exact, but fails for
overflow-sized `n` - see the counterexample), `factorize(n)` is the strictly
increasing list of exactly the positive divisors of `n`, each appearing
exactly once. -/
theorem factorize_divisors (number : Nat) (h1 : 1 ≤ number)
    (hb : pyIntSqrt number = some (Nat.sqrt number)) :
    (Factorize.factorize number).Sorted (· < ·) ∧
    ∀ d, d ∈ Factorize.factorize number ↔ d ∣ number := by
  have hfe : Factorize.factorize number
      = pySorted ((List.range' 1 (Nat.sqrt number)).flatMap
          (Factorize.factorsFor number)) := by
    unfold Factorize.factorize
    rw [hb]
  rw [hfe]
  have hperm := List.perm_insertionSort (· ≤ ·)
    ((List.range' 1 (Nat.sqrt number)).flatMap (Factorize.factorsFor number))
  constructor
  · have hsorted : (pySorted ((List.range' 1 (Nat.sqrt number)).flatMap
        (Factorize.factorsFor number))).Sorted (· ≤ ·) :=
      List.sorted_insertionSort _ _
    have hnodup : (pySorted ((List.range' 1 (Nat.sqrt number)).flatMap
        (Factorize.factorsFor number))).Nodup :=
      hperm.nodup_iff.mpr (nodup_trial_list h1)
    exact hsorted.lt_of_le hnodup
  · intro d
    rw [show pySorted ((List.range' 1 (Nat.sqrt number)).flatMap
        (Factorize.factorsFor number))
      = List.insertionSort (· ≤ ·) ((List.range' 1 (Nat.sqrt number)).flatMap
        (Factorize.factorsFor number)) from rfl]
    rw [hperm.mem_iff]
    exact mem_trial_list h1

theorem pyIntSqrt_36 : pyIntSqrt 36 = some (Nat.sqrt 36) := by
  have h1 : Nat.sqrt 36 = 6 := sqrt_eq_exact (by norm_num) (by norm_num)
  have h2 : Nat.log2 6 = 2 := log2_eq_exact (by norm_num) (by norm_num) (by norm_num)
  have h3 : Nat.sqrt (36 * 4 ^ (52 - 2)) = 6 * 2 ^ 50 :=
    sqrt_eq_exact (by norm_num) (by norm_num)
  have hfs : floatSqrt 36 = 6 := by
    unfold floatSqrt
    rw [if_neg (by norm_num : ¬(36 = 0))]
    simp only [h1, h2]
    rw [if_pos (by norm_num : (2 : Nat) ≤ 52)]
    rw [h3]
    rw [if_neg (by norm_num)]
    norm_num
  unfold pyIntSqrt
  rw [show floatOfNat 36 = some 36 by unfold floatOfNat; rw [if_pos (by norm_num)]]
  simp [hfs, h1]

/-- Witness for C10 amended at `number = 36`: the float bound is exact there
and the theorem yields a strictly sorted divisor list with exact
membership. -/
theorem factorize_divisors_witness :
    (Factorize.factorize 36).Sorted (· < ·) ∧
    ((4 : Nat) ∈ Factorize.factorize 36 ↔ (4 : Nat) ∣ 36) ∧
    ((5 : Nat) ∈ Factorize.factorize 36 ↔ (5 : Nat) ∣ 36) :=
  ⟨(factorize_divisors 36 (by decide) pyIntSqrt_36).1,
   (factorize_divisors 36 (by decide) pyIntSqrt_36).2 4,
   (factorize_divisors 36 (by decide) pyIntSqrt_36).2 5⟩

/-! ### The relocation pipeline (`process_folder` and `run`) -/

/-- The name of the output root `Path("result")` (`main.py` line 213). -/
def resultStr : Str := ['r','e','s','u','l','t']

/-- The output subfolder name each category task of `process_folder` uses
(`main.py` lines 226-247): `result / "images"`, `result / "audio"`,
`result / "video"`, `result / "documents"`, `result / "archives"` and
`result / "MY_OTHER"`. -/
def catFolder : Category → Str
  | .images => ['i','m','a','g','e','s']
  | .audio => ['a','u','d','i','o']
  | .video => ['v','i','d','e','o']
  | .documents => ['d','o','c','u','m','e','n','t','s']
  | .archives => ['a','r','c','h','i','v','e','s']
  | .other => ['M','Y','_','O','T','H','E','R']

/-- One full dispatch of the six fixed category tasks of
`MediaHandler.process_folder` (`main.py` lines 226-247) over the
module-global buckets, executed in submission order (one legal schedule of
the bounded worker pool): images, audio, video, documents, archives,
`MY_OTHER`.  Each task drains the concatenation of its buckets into its
`result/` subfolder. -/
def dispatchCategories (st : ScanState) (oc : PyPath → UnpackOutcome)
    (fs : FS) : FS :=
  let fs1 := MediaHandler.process_files fs
    (st.buckets .JPEG_IMAGES ++ st.buckets .JPG_IMAGES
      ++ st.buckets .PNG_IMAGES ++ st.buckets .SVG_IMAGES)
    [resultStr, catFolder .images]
  let fs2 := MediaHandler.process_files fs1
    (st.buckets Bucket.MP3_AUDIO ++ st.buckets Bucket.OGG_AUDIO
      ++ st.buckets Bucket.WAV_AUDIO ++ st.buckets Bucket.AMR_AUDIO)
    [resultStr, catFolder .audio]
  let fs3 := MediaHandler.process_files fs2
    (st.buckets .AVI_VIDEO ++ st.buckets .MP4_VIDEO
      ++ st.buckets .MOV_VIDEO ++ st.buckets .MKV_VIDEO)
    [resultStr, catFolder .video]
  let fs4 := MediaHandler.process_files fs3
    (st.buckets .DOC_DOCS ++ st.buckets .DOCX_DOCS ++ st.buckets .TXT_DOCS
      ++ st.buckets .PDF_DOCS ++ st.buckets .XLSX_DOCS ++ st.buckets .PPTX_DOCS)
    [resultStr, catFolder .documents]
  let fs5 := MediaHandler.process_archives fs4 (st.buckets .ARCHIVES)
    [resultStr, catFolder .archives] oc
  MediaHandler.process_files fs5 (st.buckets .MY_OTHER)
    [resultStr, catFolder .other]

mutual
/-- One submitted task of the sequential model of
`MediaHandler.process_folder` (`main.py` lines 208-247).  The source submits
one recursive `process_folder` task per immediate subdirectory and then the
six category tasks to a `ThreadPoolExecutor`; this model runs the submitted
tasks to completion in submission order, one legal schedule of the pool.  A
subdirectory entry is processed by the full `process_folder` body: create
`result/`, recurse into each of its immediate subdirectories (reserved names
are NOT filtered here - only `scan` filters them), then dispatch the same
module-global buckets again; re-dispatched records whose file was already
moved make `handle_media` fail silently.  A file entry only lands in the
(unused) `local_files` list, so it contributes nothing. -/
def processEntry (st : ScanState) (oc : PyPath → UnpackOutcome)
    (fs : FS) : Entry → FS
  | .file _ => fs
  | .dir _ cs =>
    dispatchCategories st oc
      (processSubfolders st oc (fs.mkdirP [resultStr]) cs)
/-- The recursive subfolder tasks submitted first by `process_folder`
(`main.py` lines 222-224), in directory order. -/
def processSubfolders (st : ScanState) (oc : PyPath → UnpackOutcome)
    (fs : FS) : EntryList → FS
  | .nil => fs
  | .cons e es => processSubfolders st oc (processEntry st oc fs e) es
end

/-- The full `MediaHandler.process_folder` body on a directory tree: create
`result/`, run the recursive subfolder tasks, then dispatch the six
category tasks over the module-global buckets. -/
def processFolderTree (st : ScanState) (oc : PyPath → UnpackOutcome)
    (fs : FS) (entries : EntryList) : FS :=
  dispatchCategories st oc
    (processSubfolders st oc (fs.mkdirP [resultStr]) entries)

/-- Embeds `MediaHandler.run` (`main.py` lines 249-252): scan the whole tree
under `folder` into the module-global state, then process the folder.
Returns the module state and the file system after the run. -/
def MediaHandler.run (st : ScanState) (oc : PyPath → UnpackOutcome) (fs : FS)
    (folder : PyPath) (entries : EntryList) : ScanState × FS :=
  let st1 := MediaHandler.scan st folder entries
  (st1, processFolderTree st1 oc fs entries)


/-- The concrete input file system of the C1 counterexample: a folder `d`
holding `a b.txt` (content identity 1) and `a_b.txt` (content identity 2),
whose names both normalize to `a_b.txt`. -/
def collisionFS : FS :=
  ⟨[([['d'],['a',' ','b','.','t','x','t']], 1),
    ([['d'],['a','_','b','.','t','x','t']], 2)], [[['d']]], []⟩

/-- The directory entries of folder `d` in the C1 counterexample. -/
def collisionEntries : EntryList :=
  .cons (.file ['a',' ','b','.','t','x','t'])
    (.cons (.file ['a','_','b','.','t','x','t']) .nil)

/-- The file system after running the pipeline of the C1 counterexample. -/
def collisionRun : FS :=
  (MediaHandler.run initState (fun _ => .readError) collisionFS
    [['d']] collisionEntries).2

/-- C1 counterexample: running the pipeline on a folder `d` holding the two
files `a b.txt` (content identity 1) and `a_b.txt` (content identity 2) -
whose names normalize to the same destination `result/documents/a_b.txt` -
leaves the file system holding ONLY content 2 at that destination.  The
file with content 1 was moved first and then silently overwritten by the
second move (`shutil.move` replaces an existing destination file), so it
exists afterwards neither at its original path nor at any destination: the
claimed round-trip property is false.  (A successfully unpacked archive is
a second violation: it is deleted rather than relocated - see
`handle_archive_rollback_and_delete`.) -/
theorem run_loses_file_on_destination_collision :
    collisionFS.fileAt [['d'],['a',' ','b','.','t','x','t']] = some 1 ∧
    collisionRun.files
      = [([resultStr, ['d','o','c','u','m','e','n','t','s'],
          ['a','_','b','.','t','x','t']], 2)] ∧
    (1 : Nat) ∉ collisionRun.files.map (fun pr => pr.2) := by
  refine ⟨rfl, by decide, by decide⟩

/-! ### Correctness of one relocation task -/

theorem FS.mem_dirs_mkdirP_mono {fs : FS} {d : PyPath} (p : PyPath)
    (h : d ∈ fs.dirs) : d ∈ (fs.mkdirP p).dirs := by
  unfold FS.mkdirP
  by_cases hp : p ∈ fs.dirs
  · simpa [hp] using h
  · simp only [hp, if_neg]
    exact List.mem_append.mpr (Or.inl h)

theorem head_append_singleton {t : PyPath} {x : Str}
    (h : t.head? = some resultStr) : (t ++ [x]).head? = some resultStr := by
  cases t with
  | nil => cases h
  | cons a t => simpa using h

theorem process_files_spec (target : PyPath)
    (htr : target.head? = some resultStr) :
    ∀ (l : List PyPath) (fs : FS),
    (∀ p ∈ l, fs.fileAt p ≠ none) →
    (∀ p ∈ l, p.head? ≠ some resultStr) →
    l.Nodup →
    (∀ p ∈ l, ∀ q ∈ l,
      MediaHandler.normalize (pathName p) = MediaHandler.normalize (pathName q)
        → p = q) →
    (∀ p ∈ l,
      (MediaHandler.process_files fs l target).fileAt
          (target ++ [MediaHandler.normalize (pathName p)]) = fs.fileAt p ∧
      (MediaHandler.process_files fs l target).fileAt p = none) ∧
    (∀ q : PyPath, q.head? ≠ some resultStr → q ∉ l →
      (MediaHandler.process_files fs l target).fileAt q = fs.fileAt q) ∧
    (∀ q : PyPath, q.head? = some resultStr →
      (∀ p ∈ l, q ≠ target ++ [MediaHandler.normalize (pathName p)]) →
      (MediaHandler.process_files fs l target).fileAt q = fs.fileAt q) ∧
    (∀ d ∈ fs.dirs, d ∈ (MediaHandler.process_files fs l target).dirs) ∧
    (l ≠ [] → target ∈ (MediaHandler.process_files fs l target).dirs) := by
  intro l
  induction l with
  | nil =>
    intro fs _ _ _ _
    exact ⟨by simp, fun q _ _ => rfl, fun q _ _ => rfl, fun d hd => hd,
      fun h => absurd rfl h⟩
  | cons p0 rest ih =>
    intro fs hpres hsrc hnodup hinj
    obtain ⟨v, hv⟩ := Option.ne_none_iff_exists'.mp
      (hpres p0 (List.mem_cons_self _ _))
    have hd0head : (target ++ [MediaHandler.normalize (pathName p0)]).head?
        = some resultStr := head_append_singleton htr
    have hnotdest : ∀ q : PyPath, q.head? ≠ some resultStr →
        q ≠ target ++ [MediaHandler.normalize (pathName p0)] := by
      intro q hq heq
      rw [heq] at hq
      exact hq hd0head
    have hp0ne : p0 ≠ target ++ [MediaHandler.normalize (pathName p0)] :=
      hnotdest p0 (hsrc p0 (List.mem_cons_self _ _))
    have hstep : MediaHandler.handle_media fs p0 target
        = ((fs.mkdirP target).removeFile p0).setFile
            (target ++ [MediaHandler.normalize (pathName p0)]) v := by
      unfold MediaHandler.handle_media FS.move
      simp only [show (fs.mkdirP target).fileAt p0 = some v from
        (FS.fileAt_mkdirP fs target p0).trans hv]
    have hfold : MediaHandler.process_files fs (p0 :: rest) target
        = MediaHandler.process_files
            (((fs.mkdirP target).removeFile p0).setFile
              (target ++ [MediaHandler.normalize (pathName p0)]) v)
            rest target := by
      unfold MediaHandler.process_files
      rw [List.foldl_cons]
      exact congrArg
        (fun z => List.foldl
          (fun a file => MediaHandler.handle_media a file target) z rest) hstep
    have hfs'_ne : ∀ q : PyPath, q ≠ p0 →
        q ≠ target ++ [MediaHandler.normalize (pathName p0)] →
        (((fs.mkdirP target).removeFile p0).setFile
          (target ++ [MediaHandler.normalize (pathName p0)]) v).fileAt q
          = fs.fileAt q := by
      intro q hq1 hq2
      rw [FS.fileAt_setFile_ne _ _ hq2, FS.fileAt_removeFile_ne _ hq1,
        FS.fileAt_mkdirP]
    have hfs'_dest : (((fs.mkdirP target).removeFile p0).setFile
        (target ++ [MediaHandler.normalize (pathName p0)]) v).fileAt
        (target ++ [MediaHandler.normalize (pathName p0)]) = some v :=
      FS.fileAt_setFile_self _ _ _
    have hfs'_p0 : (((fs.mkdirP target).removeFile p0).setFile
        (target ++ [MediaHandler.normalize (pathName p0)]) v).fileAt p0
        = none := by
      rw [FS.fileAt_setFile_ne _ _ hp0ne]
      exact FS.fileAt_removeFile_self _ _
    have hrest_src : ∀ p ∈ rest, p.head? ≠ some resultStr := fun p hp =>
      hsrc p (List.mem_cons_of_mem _ hp)
    have hrest_keep : ∀ p ∈ rest,
        (((fs.mkdirP target).removeFile p0).setFile
          (target ++ [MediaHandler.normalize (pathName p0)]) v).fileAt p
          = fs.fileAt p := by
      intro p hp
      have hne0 : p ≠ p0 := by
        intro heq
        subst heq
        exact (List.nodup_cons.mp hnodup).1 hp
      exact hfs'_ne p hne0 (hnotdest p (hrest_src p hp))
    obtain ⟨ihA, ihB, ihC, ihD, ihE⟩ := ih
      (((fs.mkdirP target).removeFile p0).setFile
        (target ++ [MediaHandler.normalize (pathName p0)]) v)
      (fun p hp => by
        rw [hrest_keep p hp]
        exact hpres p (List.mem_cons_of_mem _ hp))
      hrest_src
      (List.nodup_cons.mp hnodup).2
      (fun p hp q hq h =>
        hinj p (List.mem_cons_of_mem _ hp) q (List.mem_cons_of_mem _ hq) h)
    have hdest0_not_rest_dest : ∀ p ∈ rest,
        target ++ [MediaHandler.normalize (pathName p0)]
          ≠ target ++ [MediaHandler.normalize (pathName p)] := by
      intro p hp heq
      have hn : MediaHandler.normalize (pathName p0)
          = MediaHandler.normalize (pathName p) := by
        have := List.append_cancel_left heq
        simpa using this
      have := hinj p0 (List.mem_cons_self _ _) p (List.mem_cons_of_mem _ hp) hn
      subst this
      exact (List.nodup_cons.mp hnodup).1 hp
    refine ⟨?_, ?_, ?_, ?_, ?_⟩
    · intro p hp
      rcases List.mem_cons.mp hp with rfl | hp2
      · constructor
        · rw [hfold, ihC _ hd0head hdest0_not_rest_dest, hfs'_dest, hv]
        · rw [hfold, ihB _ (hsrc p (List.mem_cons_self _ _))
            (List.nodup_cons.mp hnodup).1, hfs'_p0]
      · constructor
        · rw [hfold, (ihA p hp2).1, hrest_keep p hp2]
        · rw [hfold, (ihA p hp2).2]
    · intro q hq hqmem
      rw [hfold, ihB q hq (fun hmem => hqmem (List.mem_cons_of_mem _ hmem))]
      exact hfs'_ne q (fun heq => hqmem (heq ▸ List.mem_cons_self _ _))
        (hnotdest q hq)
    · intro q hq hqdest
      rw [hfold, ihC q hq
        (fun p hp => hqdest p (List.mem_cons_of_mem _ hp))]
      have hqne0 : q ≠ p0 := by
        intro heq
        subst heq
        exact hsrc q (List.mem_cons_self _ _) hq
      exact hfs'_ne q hqne0 (hqdest p0 (List.mem_cons_self _ _))
    · intro d hd
      rw [hfold]
      exact ihD d (FS.mem_dirs_mkdirP_mono target hd)
    · intro _
      rw [hfold]
      exact ihD target (FS.mem_dirs_mkdirP_self fs target)

theorem process_files_noop (target : PyPath) :
    ∀ (l : List PyPath) (fs : FS),
    (∀ p ∈ l, fs.fileAt p = none) →
    (l ≠ [] → target ∈ fs.dirs) →
    MediaHandler.process_files fs l target = fs := by
  intro l
  induction l with
  | nil => intro fs _ _; rfl
  | cons p0 rest ih =>
    intro fs habs hdir
    have hmk : fs.mkdirP target = fs := by
      unfold FS.mkdirP
      rw [if_pos (hdir (List.cons_ne_nil _ _))]
    have hstep : MediaHandler.handle_media fs p0 target = fs := by
      unfold MediaHandler.handle_media FS.move
      simp only [hmk, habs p0 (List.mem_cons_self _ _)]
    have hfold : MediaHandler.process_files fs (p0 :: rest) target
        = MediaHandler.process_files fs rest target := by
      unfold MediaHandler.process_files
      rw [List.foldl_cons]
      exact congrArg
        (fun z => List.foldl
          (fun a file => MediaHandler.handle_media a file target) z rest) hstep
    rw [hfold]
    exact ih fs (fun p hp => habs p (List.mem_cons_of_mem _ hp))
      (fun _ => hdir (List.cons_ne_nil _ _))

/-- The submitted relocation tasks of one dispatch, executed in order (the
abstract form of the five non-archive tasks of `dispatchCategories`). -/
def runTasks (fs : FS) : List (List PyPath × PyPath) → FS
  | [] => fs
  | lt :: rest => runTasks (MediaHandler.process_files fs lt.1 lt.2) rest

theorem runTasks_noop :
    ∀ (TS : List (List PyPath × PyPath)) (fs : FS),
    (∀ lt ∈ TS, ∀ p ∈ lt.1, fs.fileAt p = none) →
    (∀ lt ∈ TS, lt.1 ≠ [] → lt.2 ∈ fs.dirs) →
    runTasks fs TS = fs := by
  intro TS
  induction TS with
  | nil => intro fs _ _; rfl
  | cons lt rest ih =>
    intro fs habs hdirs
    have h1 : MediaHandler.process_files fs lt.1 lt.2 = fs :=
      process_files_noop lt.2 lt.1 fs (habs lt (List.mem_cons_self _ _))
        (hdirs lt (List.mem_cons_self _ _))
    show runTasks (MediaHandler.process_files fs lt.1 lt.2) rest = fs
    rw [h1]
    exact ih fs (fun t ht => habs t (List.mem_cons_of_mem _ ht))
      (fun t ht => hdirs t (List.mem_cons_of_mem _ ht))

/-- The five non-archive relocation tasks of one dispatch of
`process_folder`, as (record list, destination folder) pairs in submission
order. -/
def mediaTasks (st : ScanState) : List (List PyPath × PyPath) :=
  [(st.buckets .JPEG_IMAGES ++ st.buckets .JPG_IMAGES
      ++ st.buckets .PNG_IMAGES ++ st.buckets .SVG_IMAGES,
    [resultStr, catFolder .images]),
   (st.buckets Bucket.MP3_AUDIO ++ st.buckets Bucket.OGG_AUDIO
      ++ st.buckets Bucket.WAV_AUDIO ++ st.buckets Bucket.AMR_AUDIO,
    [resultStr, catFolder .audio]),
   (st.buckets .AVI_VIDEO ++ st.buckets .MP4_VIDEO
      ++ st.buckets .MOV_VIDEO ++ st.buckets .MKV_VIDEO,
    [resultStr, catFolder .video]),
   (st.buckets .DOC_DOCS ++ st.buckets .DOCX_DOCS ++ st.buckets .TXT_DOCS
      ++ st.buckets .PDF_DOCS ++ st.buckets .XLSX_DOCS ++ st.buckets .PPTX_DOCS,
    [resultStr, catFolder .documents]),
   (st.buckets .MY_OTHER, [resultStr, catFolder .other])]

theorem dispatch_eq_runTasks (st : ScanState) (oc : PyPath → UnpackOutcome)
    (fs : FS) (h0 : st.buckets .ARCHIVES = []) :
    dispatchCategories st oc fs = runTasks fs (mediaTasks st) := by
  unfold dispatchCategories
  rw [h0]
  rfl

theorem dispatch_noop (st : ScanState) (oc : PyPath → UnpackOutcome) (fs : FS)
    (h0 : st.buckets .ARCHIVES = [])
    (habs : ∀ lt ∈ mediaTasks st, ∀ p ∈ lt.1, fs.fileAt p = none)
    (hdirs : ∀ lt ∈ mediaTasks st, lt.1 ≠ [] → lt.2 ∈ fs.dirs) :
    dispatchCategories st oc fs = fs := by
  rw [dispatch_eq_runTasks st oc fs h0]
  exact runTasks_noop (mediaTasks st) fs habs hdirs

theorem runTasks_spec :
    ∀ (TS : List (List PyPath × PyPath)) (fs : FS),
    (∀ lt ∈ TS, lt.2.head? = some resultStr) →
    (∀ lt ∈ TS, ∀ p ∈ lt.1, fs.fileAt p ≠ none) →
    (∀ lt ∈ TS, ∀ p ∈ lt.1, p.head? ≠ some resultStr) →
    (TS.flatMap (fun lt => lt.1)).Nodup →
    (∀ lt ∈ TS, ∀ lt' ∈ TS, ∀ p ∈ lt.1, ∀ q ∈ lt'.1,
      lt.2 ++ [MediaHandler.normalize (pathName p)]
        = lt'.2 ++ [MediaHandler.normalize (pathName q)] → p = q) →
    (∀ lt ∈ TS, ∀ p ∈ lt.1,
      (runTasks fs TS).fileAt (lt.2 ++ [MediaHandler.normalize (pathName p)])
          = fs.fileAt p ∧
      (runTasks fs TS).fileAt p = none) ∧
    (∀ q : PyPath, q.head? ≠ some resultStr →
      (∀ lt ∈ TS, q ∉ lt.1) → (runTasks fs TS).fileAt q = fs.fileAt q) ∧
    (∀ q : PyPath, q.head? = some resultStr →
      (∀ lt ∈ TS, ∀ p ∈ lt.1,
        q ≠ lt.2 ++ [MediaHandler.normalize (pathName p)]) →
      (runTasks fs TS).fileAt q = fs.fileAt q) ∧
    (∀ d ∈ fs.dirs, d ∈ (runTasks fs TS).dirs) ∧
    (∀ lt ∈ TS, lt.1 ≠ [] → lt.2 ∈ (runTasks fs TS).dirs) := by
  intro TS
  induction TS with
  | nil =>
    intro fs _ _ _ _ _
    exact ⟨by simp, fun q _ _ => rfl, fun q _ _ => rfl, fun d hd => hd,
      by simp⟩
  | cons lt0 rest ih =>
    intro fs htgt hpres hsrc hnd hinj
    have hmem0 : lt0 ∈ lt0 :: rest := List.mem_cons_self _ _
    have hnd' : (lt0.1 ++ rest.flatMap (fun lt => lt.1)).Nodup := by
      simpa [List.flatMap_cons] using hnd
    obtain ⟨hnd0, hndrest, hdisj⟩ := List.nodup_append.mp hnd'
    have hspec := process_files_spec lt0.2 (htgt lt0 hmem0) lt0.1 fs
      (hpres lt0 hmem0) (hsrc lt0 hmem0) hnd0
      (fun p hp q hq h => hinj lt0 hmem0 lt0 hmem0 p hp q hq (by rw [h]))
    obtain ⟨sA, sB, sC, sD, sE⟩ := hspec
    have hrest_notin0 : ∀ lt ∈ rest, ∀ p ∈ lt.1, p ∉ lt0.1 := by
      intro t ht p hp hmem
      exact hdisj hmem (List.mem_flatMap.mpr ⟨t, ht, hp⟩)
    have hkeep : ∀ lt ∈ rest, ∀ p ∈ lt.1,
        (MediaHandler.process_files fs lt0.1 lt0.2).fileAt p = fs.fileAt p := by
      intro t ht p hp
      exact sB p (hsrc t (List.mem_cons_of_mem _ ht) p hp)
        (hrest_notin0 t ht p hp)
    obtain ⟨ihA, ihB, ihC, ihD, ihE⟩ := ih
      (MediaHandler.process_files fs lt0.1 lt0.2)
      (fun t ht => htgt t (List.mem_cons_of_mem _ ht))
      (fun t ht p hp => by
        rw [hkeep t ht p hp]
        exact hpres t (List.mem_cons_of_mem _ ht) p hp)
      (fun t ht => hsrc t (List.mem_cons_of_mem _ ht))
      hndrest
      (fun t ht t' ht' p hp q hq h =>
        hinj t (List.mem_cons_of_mem _ ht) t' (List.mem_cons_of_mem _ ht')
          p hp q hq h)
    have hfold : runTasks fs (lt0 :: rest)
        = runTasks (MediaHandler.process_files fs lt0.1 lt0.2) rest := rfl
    refine ⟨?_, ?_, ?_, ?_, ?_⟩
    · intro t ht p hp
      rcases List.mem_cons.mp ht with rfl | ht2
      · constructor
        · rw [hfold]
          rw [ihC (t.2 ++ [MediaHandler.normalize (pathName p)])
            (head_append_singleton (htgt t hmem0))
            (fun t' ht' q hq heq => by
              have hpq := hinj t hmem0 t' (List.mem_cons_of_mem _ ht')
                p hp q hq heq
              subst hpq
              exact hrest_notin0 t' ht' p hq hp)]
          exact (sA p hp).1
        · rw [hfold]
          rw [ihB p (hsrc t hmem0 p hp)
            (fun t' ht' hmem => hrest_notin0 t' ht' p hmem hp)]
          exact (sA p hp).2
      · constructor
        · rw [hfold, (ihA t ht2 p hp).1, hkeep t ht2 p hp]
        · rw [hfold, (ihA t ht2 p hp).2]
    · intro q hq hnot
      rw [hfold, ihB q hq (fun t ht => hnot t (List.mem_cons_of_mem _ ht))]
      exact sB q hq (hnot lt0 hmem0)
    · intro q hq hnot
      rw [hfold, ihC q hq
        (fun t ht p hp => hnot t (List.mem_cons_of_mem _ ht) p hp)]
      exact sC q hq (fun p hp => hnot lt0 hmem0 p hp)
    · intro d hd
      rw [hfold]
      exact ihD d (sD d hd)
    · intro t ht hne
      rcases List.mem_cons.mp ht with rfl | ht2
      · rw [hfold]
        exact ihD t.2 (sE hne)
      · rw [hfold]
        exact ihE t ht2 hne

theorem handle_media_dirs_mono {fs : FS} {d : PyPath} (f t : PyPath)
    (h : d ∈ fs.dirs) : d ∈ (MediaHandler.handle_media fs f t).dirs := by
  unfold MediaHandler.handle_media FS.move
  cases hfa : (fs.mkdirP t).fileAt f with
  | none =>
    simp only [hfa]
    exact FS.mem_dirs_mkdirP_mono t h
  | some v =>
    simp only [hfa]
    show d ∈ (FS.setFile _ _ _).dirs
    rw [FS.dirs_setFile, FS.dirs_removeFile]
    exact FS.mem_dirs_mkdirP_mono t h

theorem process_files_dirs_mono {d : PyPath} (t : PyPath) :
    ∀ (l : List PyPath) (fs : FS), d ∈ fs.dirs →
      d ∈ (MediaHandler.process_files fs l t).dirs := by
  intro l
  induction l with
  | nil => intro fs h; exact h
  | cons p rest ih =>
    intro fs h
    have hstep : MediaHandler.process_files fs (p :: rest) t
        = MediaHandler.process_files (MediaHandler.handle_media fs p t) rest t := by
      unfold MediaHandler.process_files
      rw [List.foldl_cons]
    rw [hstep]
    exact ih (MediaHandler.handle_media fs p t) (handle_media_dirs_mono p t h)

theorem runTasks_dirs_mono {d : PyPath} :
    ∀ (TS : List (List PyPath × PyPath)) (fs : FS), d ∈ fs.dirs →
      d ∈ (runTasks fs TS).dirs := by
  intro TS
  induction TS with
  | nil => intro fs h; exact h
  | cons lt rest ih =>
    intro fs h
    exact ih (MediaHandler.process_files fs lt.1 lt.2)
      (process_files_dirs_mono lt.2 lt.1 fs h)

theorem dispatch_dirs_mono {d : PyPath} (st : ScanState)
    (oc : PyPath → UnpackOutcome) (fs : FS)
    (h0 : st.buckets .ARCHIVES = []) (h : d ∈ fs.dirs) :
    d ∈ (dispatchCategories st oc fs).dirs := by
  rw [dispatch_eq_runTasks st oc fs h0]
  exact runTasks_dirs_mono (mediaTasks st) fs h

theorem FS.mkdirP_of_mem {fs : FS} {p : PyPath} (h : p ∈ fs.dirs) :
    fs.mkdirP p = fs := by
  unfold FS.mkdirP
  rw [if_pos h]

mutual
theorem processEntry_collapse (st : ScanState) (oc : PyPath → UnpackOutcome)
    (x : FS)
    (hDD : dispatchCategories st oc (dispatchCategories st oc x)
      = dispatchCategories st oc x)
    (hrx : [resultStr] ∈ x.dirs)
    (hrDx : [resultStr] ∈ (dispatchCategories st oc x).dirs) :
    ∀ (e : Entry) (y : FS), y = x ∨ y = dispatchCategories st oc x →
      processEntry st oc y e = y ∨
      processEntry st oc y e = dispatchCategories st oc x
  | .file _, y, _ => Or.inl rfl
  | .dir n cs, y, hy => by
    have hmk : y.mkdirP [resultStr] = y := by
      rcases hy with h1 | h1
      · rw [h1]; exact FS.mkdirP_of_mem hrx
      · rw [h1]; exact FS.mkdirP_of_mem hrDx
    have hsub := processSubfolders_collapse st oc x hDD hrx hrDx cs
      (y.mkdirP [resultStr]) (by rw [hmk]; exact hy)
    rw [hmk] at hsub
    have hgoal : processEntry st oc y (.dir n cs)
        = dispatchCategories st oc
            (processSubfolders st oc (y.mkdirP [resultStr]) cs) := rfl
    rw [hgoal, hmk]
    rcases hsub with h | h
    · rw [h]
      rcases hy with h1 | h1
      · rw [h1]; exact Or.inr rfl
      · rw [h1]; exact Or.inr hDD
    · rw [h]
      exact Or.inr hDD
theorem processSubfolders_collapse (st : ScanState)
    (oc : PyPath → UnpackOutcome) (x : FS)
    (hDD : dispatchCategories st oc (dispatchCategories st oc x)
      = dispatchCategories st oc x)
    (hrx : [resultStr] ∈ x.dirs)
    (hrDx : [resultStr] ∈ (dispatchCategories st oc x).dirs) :
    ∀ (t : EntryList) (y : FS), y = x ∨ y = dispatchCategories st oc x →
      processSubfolders st oc y t = y ∨
      processSubfolders st oc y t = dispatchCategories st oc x
  | .nil, y, _ => Or.inl rfl
  | .cons e es, y, hy => by
    have hpe := processEntry_collapse st oc x hDD hrx hrDx e y hy
    have hz : processEntry st oc y e = x ∨
        processEntry st oc y e = dispatchCategories st oc x := by
      rcases hpe with h | h
      · rw [h]
        exact hy
      · exact Or.inr h
    have hps := processSubfolders_collapse st oc x hDD hrx hrDx es
      (processEntry st oc y e) hz
    have hgoal : processSubfolders st oc y (.cons e es)
        = processSubfolders st oc (processEntry st oc y e) es := rfl
    rw [hgoal]
    rcases hps with h | h
    · rw [h]
      exact hpe
    · exact Or.inr h
end

theorem mediaTasks_targets (st : ScanState) :
    ∀ lt ∈ mediaTasks st, lt.2.head? = some resultStr := by
  intro lt hlt
  simp only [mediaTasks, List.mem_cons, List.not_mem_nil, or_false] at hlt
  rcases hlt with rfl | rfl | rfl | rfl | rfl <;> rfl

/-- C1 (amended): the claimed round-trip fails on a destination-name
collision (see the counterexample: `shutil.move` overwrites an existing
destination, losing a file) and on archives (a successfully unpacked
archive is deleted, not relocated - `main.py` line 153).  Under the amended
preconditions - a fresh module state, no archives scanned, every scanned
record present in the starting file system at a source path not under
`result/`, no path scanned twice, and no two scanned records normalizing
to the same destination path - the full `run` (scan then the recursive
`process_folder` dispatch, executed in submission order) relocates every
scanned record to exactly one destination under `result/` (its category
folder plus its normalized name) with its original content, vacates every
source path, and leaves every other path outside `result/` unchanged; the
re-dispatches performed by the recursive subfolder tasks find every bucket
already drained and change nothing. -/
theorem run_relocates_scanned_files (oc : PyPath → UnpackOutcome) (fs0 : FS)
    (folder : PyPath) (entries : EntryList) (st1 : ScanState)
    (hst : st1 = MediaHandler.scan initState folder entries)
    (harch : st1.buckets .ARCHIVES = [])
    (hpres : ∀ lt ∈ mediaTasks st1, ∀ p ∈ lt.1, fs0.fileAt p ≠ none)
    (hsrc : ∀ lt ∈ mediaTasks st1, ∀ p ∈ lt.1, p.head? ≠ some resultStr)
    (hnd : ((mediaTasks st1).flatMap (fun lt => lt.1)).Nodup)
    (hinj : ∀ lt ∈ mediaTasks st1, ∀ lt' ∈ mediaTasks st1,
      ∀ p ∈ lt.1, ∀ q ∈ lt'.1,
      lt.2 ++ [MediaHandler.normalize (pathName p)]
        = lt'.2 ++ [MediaHandler.normalize (pathName q)] → p = q) :
    (∀ lt ∈ mediaTasks st1, ∀ p ∈ lt.1,
      ((MediaHandler.run initState oc fs0 folder entries).2).fileAt
          (lt.2 ++ [MediaHandler.normalize (pathName p)]) = fs0.fileAt p ∧
      ((MediaHandler.run initState oc fs0 folder entries).2).fileAt p
        = none) ∧
    (∀ q : PyPath, q.head? ≠ some resultStr →
      (∀ lt ∈ mediaTasks st1, q ∉ lt.1) →
      ((MediaHandler.run initState oc fs0 folder entries).2).fileAt q
        = fs0.fileAt q) := by
  subst hst
  have hfa_x : ∀ p : PyPath,
      (fs0.mkdirP [resultStr]).fileAt p = fs0.fileAt p :=
    FS.fileAt_mkdirP fs0 [resultStr]
  have hrx : [resultStr] ∈ (fs0.mkdirP [resultStr]).dirs :=
    FS.mem_dirs_mkdirP_self fs0 [resultStr]
  have hDx_eq : dispatchCategories (MediaHandler.scan initState folder entries)
      oc (fs0.mkdirP [resultStr])
      = runTasks (fs0.mkdirP [resultStr])
          (mediaTasks (MediaHandler.scan initState folder entries)) :=
    dispatch_eq_runTasks _ oc _ harch
  obtain ⟨sA, sB, sC, sD, sE⟩ := runTasks_spec
    (mediaTasks (MediaHandler.scan initState folder entries))
    (fs0.mkdirP [resultStr])
    (mediaTasks_targets _)
    (fun lt hlt p hp => by rw [hfa_x p]; exact hpres lt hlt p hp)
    hsrc hnd hinj
  have hDD : dispatchCategories (MediaHandler.scan initState folder entries) oc
      (dispatchCategories (MediaHandler.scan initState folder entries) oc
        (fs0.mkdirP [resultStr]))
      = dispatchCategories (MediaHandler.scan initState folder entries) oc
          (fs0.mkdirP [resultStr]) := by
    refine dispatch_noop _ oc _ harch ?_ ?_
    · intro lt hlt p hp
      rw [hDx_eq]
      exact (sA lt hlt p hp).2
    · intro lt hlt hne
      rw [hDx_eq]
      exact sE lt hlt hne
  have hrDx : [resultStr] ∈
      (dispatchCategories (MediaHandler.scan initState folder entries) oc
        (fs0.mkdirP [resultStr])).dirs :=
    dispatch_dirs_mono _ oc _ harch hrx
  have hcol := processSubfolders_collapse
    (MediaHandler.scan initState folder entries) oc (fs0.mkdirP [resultStr])
    hDD hrx hrDx entries (fs0.mkdirP [resultStr]) (Or.inl rfl)
  have hrun : (MediaHandler.run initState oc fs0 folder entries).2
      = dispatchCategories (MediaHandler.scan initState folder entries) oc
          (processSubfolders (MediaHandler.scan initState folder entries) oc
            (fs0.mkdirP [resultStr]) entries) := rfl
  have hfinal : (MediaHandler.run initState oc fs0 folder entries).2
      = dispatchCategories (MediaHandler.scan initState folder entries) oc
          (fs0.mkdirP [resultStr]) := by
    rcases hcol with h | h
    · rw [hrun, h]
    · rw [hrun, h]
      exact hDD
  refine ⟨?_, ?_⟩
  · intro lt hlt p hp
    constructor
    · rw [hfinal, hDx_eq, (sA lt hlt p hp).1]
      exact hfa_x p
    · rw [hfinal, hDx_eq]
      exact (sA lt hlt p hp).2
  · intro q hq hnot
    rw [hfinal, hDx_eq, sB q hq hnot]
    exact hfa_x q

/-- Concrete starting file system for the round-trip witness: folder `d`
holding `x.mp3` with content identity 7. -/
def wFS : FS := ⟨[([[ 'd'],['x','.','m','p','3']], 7)], [[['d']]], []⟩

/-- Directory entries of folder `d` for the round-trip witness. -/
def wEntries : EntryList := .cons (.file ['x','.','m','p','3']) .nil

theorem run_relocates_scanned_files_witness :
    ((MediaHandler.run initState (fun _ => .readError) wFS [['d']]
        wEntries).2).fileAt
      [resultStr, catFolder .audio, ['x','.','m','p','3']] = some 7 ∧
    ((MediaHandler.run initState (fun _ => .readError) wFS [['d']]
        wEntries).2).fileAt [['d'],['x','.','m','p','3']] = none := by
  have h := run_relocates_scanned_files (fun _ => .readError) wFS [['d']]
    wEntries (MediaHandler.scan initState [['d']] wEntries) rfl
    (by decide) (by decide) (by decide) (by decide) (by decide)
  have hm := h.1 ([[['d'],['x','.','m','p','3']]],
      [resultStr, catFolder .audio]) (by decide)
    [['d'],['x','.','m','p','3']] (by decide)
  obtain ⟨hm1, hm2⟩ := hm
  have heq : ([resultStr, catFolder .audio] : PyPath)
      ++ [MediaHandler.normalize (pathName [['d'],['x','.','m','p','3']])]
      = [resultStr, catFolder .audio, ['x','.','m','p','3']] := by decide
  rw [heq] at hm1
  exact ⟨hm1.trans (by decide), hm2⟩
